import Mathlib

/-!
Verification of `viewer/build_viewer.py` (agent-debate repository).

Strings are modelled as lists of Unicode codepoints (`List Nat`), so that the
differing character classes of Python's `re` module and JavaScript's `RegExp`
(both are used by the program: the server-side renderer is Python, the
client-side renderer is the JavaScript embedded in the generated page) can be
expressed faithfully.
-/

set_option maxRecDepth 100000

namespace AgentDebate

/-- Codepoints of a Lean string literal; used to transcribe the literal
fragments of the source program. -/
def lit (s : String) : List Nat := s.toList.map Char.toNat

/-- Python's whitespace class, as used by `str.strip()` and by `\s` in `re`
patterns on `str`: tab, LF, VT, FF, CR, space, the control characters
FS/GS/RS/US (0x1C-0x1F), NEL (0x85), NBSP (0xA0), and the Unicode space
separators (0x1680, 0x2000-0x200A, 0x2028, 0x2029, 0x202F, 0x205F, 0x3000). -/
def pyIsSpace (c : Nat) : Bool :=
  c == 9 || c == 10 || c == 11 || c == 12 || c == 13 || c == 32 ||
  (28 ≤ c && c ≤ 31) || c == 133 || c == 160 || c == 5760 ||
  (8192 ≤ c && c ≤ 8202) || c == 8232 || c == 8233 || c == 8239 || c == 8287 ||
  c == 12288

/-- JavaScript's whitespace class, as used by `String.prototype.trim` and by
`\s` in regular expressions: tab, LF, VT, FF, CR, space, NBSP, BOM (0xFEFF),
and the Unicode space separators.  Unlike Python it excludes 0x1C-0x1F and
0x85, and includes 0xFEFF. -/
def jsIsSpace (c : Nat) : Bool :=
  c == 9 || c == 10 || c == 11 || c == 12 || c == 13 || c == 32 ||
  c == 160 || c == 5760 || (8192 ≤ c && c ≤ 8202) || c == 8232 || c == 8233 ||
  c == 8239 || c == 8287 || c == 12288 || c == 65279

/-- Python's `\d` on `str` patterns matches any Unicode decimal digit
(category Nd).  The full Nd table is large; this model covers the ASCII
digits and the Arabic-Indic digits 0x660-0x669 (the only non-ASCII Nd range
this development evaluates on; every theorem below that assumes agreement
between the Python and JavaScript classes restricts its input to ASCII, where
this definition is complete). -/
def pyIsDigit (c : Nat) : Bool :=
  (48 ≤ c && c ≤ 57) || (1632 ≤ c && c ≤ 1641)

/-- JavaScript's `\d`: the ASCII digits only. -/
def jsIsDigit (c : Nat) : Bool :=
  48 ≤ c && c ≤ 57

/-- Python's `.` (no DOTALL flag): any character except LF. -/
def pyDot (c : Nat) : Bool := !(c == 10)

/-- JavaScript's `.` (no `s` flag): any character except the line terminators
LF, CR, LS (0x2028), PS (0x2029). -/
def jsDot (c : Nat) : Bool := !(c == 10 || c == 13 || c == 8232 || c == 8233)

/-- Characters on which the Python and JavaScript character classes used by
the two renderers all agree: tab, LF, VT, FF and printable ASCII.  CR is
excluded (Python's `.` matches it, JavaScript's does not), as are 0x1C-0x1F
(Python whitespace but not JavaScript whitespace) and everything non-ASCII. -/
def asciiSafe (c : Nat) : Bool :=
  c == 9 || c == 10 || c == 11 || c == 12 || (32 ≤ c && c ≤ 126)

theorem sp_agree {c : Nat} (h : asciiSafe c = true) : pyIsSpace c = jsIsSpace c := by
  have hc : c ≤ 126 := by
    simp only [asciiSafe, Bool.or_eq_true, Bool.and_eq_true, beq_iff_eq,
      decide_eq_true_eq] at h
    omega
  interval_cases c <;> revert h <;> decide

theorem dg_agree {c : Nat} (h : asciiSafe c = true) : pyIsDigit c = jsIsDigit c := by
  have hc : c ≤ 126 := by
    simp only [asciiSafe, Bool.or_eq_true, Bool.and_eq_true, beq_iff_eq,
      decide_eq_true_eq] at h
    omega
  interval_cases c <;> revert h <;> decide

theorem dot_agree {c : Nat} (h : asciiSafe c = true) : pyDot c = jsDot c := by
  have hc : c ≤ 126 := by
    simp only [asciiSafe, Bool.or_eq_true, Bool.and_eq_true, beq_iff_eq,
      decide_eq_true_eq] at h
    omega
  interval_cases c <;> revert h <;> decide

/-- `s.split(sep)` (Python) / `s.split(sep)` (JavaScript) on a one-character
separator: both return the (possibly empty) fragments between occurrences of
the separator, with `[""]` for the empty string. -/
def splitOnC (sep : Nat) : List Nat → List (List Nat)
  | [] => [[]]
  | c :: cs =>
    if c = sep then [] :: splitOnC sep cs
    else
      match splitOnC sep cs with
      | [] => [[c]]
      | p :: ps => (c :: p) :: ps

/-- `"\n".join(result)` (Python) / `result.join('\n')` (JavaScript). -/
def joinNl (ls : List (List Nat)) : List Nat := List.intercalate [10] ls

/-- `line.strip()` (Python) / `line.trim()` (JavaScript), parameterised by the
host language's whitespace class. -/
def strip (sp : Nat → Bool) (l : List Nat) : List Nat :=
  ((l.dropWhile sp).reverse.dropWhile sp).reverse

/-- Split at the first occurrence of `sep`: returns the (possibly empty)
segment before it and the remainder after it, or `none` if absent.  This is
the deterministic reading of a greedy negated character class `[^x]*` (or
`[^x]+`, checked by the caller) followed by the literal `x`. -/
def splitUntil (sep : Nat) : List Nat → Option (List Nat × List Nat)
  | [] => none
  | c :: cs =>
    if c = sep then some ([], cs)
    else (splitUntil sep cs).map (fun p => (c :: p.1, p.2))

/-- Match a literal prefix, returning the remainder. -/
def dropPre : List Nat → List Nat → Option (List Nat)
  | [], s => some s
  | _ :: _, [] => none
  | p :: ps, c :: cs => if c = p then dropPre ps cs else none

/-- One step of global regex substitution (`re.sub` / `String.replace` with
the `g` flag): at each position try the matcher; on success emit its
replacement and continue after the consumed text, otherwise copy one
character.  Fuelled by the input length; every matcher used below consumes at
least one character per match, so the fuel never runs out. -/
def gsubGo (m : List Nat → Option (List Nat × List Nat)) : Nat → List Nat → List Nat
  | 0, s => s
  | _ + 1, [] => []
  | fuel + 1, c :: cs =>
    match m (c :: cs) with
    | some (rep, rest) => rep ++ gsubGo m fuel rest
    | none => c :: gsubGo m fuel cs

def gsub (m : List Nat → Option (List Nat × List Nat)) (s : List Nat) : List Nat :=
  gsubGo m s.length s

/-- The optional visible-label suffix of a citation, emitted only when the
second capture participated and is non-empty (both hosts treat the empty
string as falsy). -/
def citationExtra : Option (List Nat) → List Nat
  | some (e :: es) => lit ", " ++ (e :: es)
  | _ => []

/-- HTML replacement for a matched citation, from the Python lambda in
`inline_format` and the identical JavaScript callback in `inlineFmt`. -/
def citationRep (title : List Nat) (extra : Option (List Nat)) (url : List Nat) : List Nat :=
  lit "<a class=\"citation\" href=\"" ++ url ++ lit "\" target=\"_blank\" title=\"" ++
  title ++ lit "\">[" ++ title ++ citationExtra extra ++ lit "]</a>"

/-- Tail of the citation matcher: the literal `](` was reached; match
`\(([^)]+)\)`. -/
def citationFinish (title : List Nat) (extra : Option (List Nat)) (s7 : List Nat) :
    Option (List Nat × List Nat) :=
  match s7 with
  | c :: s8 =>
    if c = 40 then
      match splitUntil 41 s8 with
      | some (url, s9) =>
        if url = [] then none else some (citationRep title extra url, s9)
      | none => none
    else none
  | [] => none

/-- Matcher for the sourced-citation pattern
`\[Source:\s*"([^"]+)"(?:,\s*([^]]*))?\]\(([^)]+)\)` (Python) /
`\[Source:\s*"([^"]+)"(?:,\s*([^\]]*))?\]\(([^)]+)\)` (JavaScript) anchored at
the start of `s`.  All quantifiers here are over character sets disjoint from
the following literal, so the greedy match is deterministic; when the
optional comma group is present but cannot complete, the fallback without the
group also fails (the next character is the comma, not `]`), so failure is
final. -/
def matchCitation (sp : Nat → Bool) (s : List Nat) : Option (List Nat × List Nat) :=
  match dropPre (lit "[Source:") s with
  | none => none
  | some s1 =>
    match s1.dropWhile sp with
    | c :: s3 =>
      if c = 34 then
        match splitUntil 34 s3 with
        | some (title, s4) =>
          if title = [] then none
          else
            match s4 with
            | d :: s5 =>
              if d = 44 then
                match splitUntil 93 (s5.dropWhile sp) with
                | some (extra, s7) => citationFinish title (some extra) s7
                | none => none
              else if d = 93 then citationFinish title none s5
              else none
            | [] => none
        | none => none
      else none
    | [] => none

/-- Matcher for `\[Unsourced\s*--\s*([^\]]+)\]` anchored at the start of `s`.
After the literal `--`, the greedy `\s*` takes as much whitespace as it can
while leaving at least one character for `([^\]]+)` before the first `]`:
with `w` whitespace characters available and the first `]` after `q`
characters, the engine settles on `min w (q - 1)` whitespace characters. -/
def matchUnsourced (sp : Nat → Bool) (s : List Nat) : Option (List Nat × List Nat) :=
  match dropPre (lit "[Unsourced") s with
  | none => none
  | some s1 =>
    match dropPre (lit "--") (s1.dropWhile sp) with
    | none => none
    | some s3 =>
      match splitUntil 93 s3 with
      | none => none
      | some (pre, rest) =>
        if pre = [] then none
        else
          let w := (s3.takeWhile sp).length
          let note := pre.drop (min w (pre.length - 1))
          some (lit "<span class=\"unsourced\" title=\"" ++ note ++
                lit "\">[Unsourced]</span>", rest)

/-- Matcher for the generic markdown link `\[([^\]]+)\]\(([^)]+)\)`. -/
def matchLink (s : List Nat) : Option (List Nat × List Nat) :=
  match s with
  | c :: s1 =>
    if c = 91 then
      match splitUntil 93 s1 with
      | some (txt, s2) =>
        if txt = [] then none
        else
          match s2 with
          | d :: s3 =>
            if d = 40 then
              match splitUntil 41 s3 with
              | some (url, s4) =>
                if url = [] then none
                else some (lit "<a class=\"source-link\" href=\"" ++ url ++
                           lit "\" target=\"_blank\">" ++ txt ++ lit "</a>", s4)
              | none => none
            else none
          | [] => none
      | none => none
    else none
  | [] => none

/-- Lazy scan for the closing `**` of the bold pattern: having captured `acc`
(at least one character is required before the close may be considered, since
the quantifier is `+?`), close at the earliest `**`; every captured character
must be matched by `.`. -/
def boldScan (dot : Nat → Bool) : List Nat → List Nat → Option (List Nat × List Nat)
  | _, [] => none
  | acc, c :: t =>
    if !acc.isEmpty && ((c :: t).take 2 == [42, 42]) then some (acc, t.drop 1)
    else if dot c then boldScan dot (acc ++ [c]) t
    else none

/-- Matcher for bold, `\*\*(.+?)\*\*` (lazy). -/
def matchBold (dot : Nat → Bool) (s : List Nat) : Option (List Nat × List Nat) :=
  match dropPre (lit "**") s with
  | none => none
  | some s1 =>
    match boldScan dot [] s1 with
    | some (cap, rest) => some (lit "<strong>" ++ cap ++ lit "</strong>", rest)
    | none => none

/-- Matcher for inline code, `` `([^`]+)` ``. -/
def matchCode (s : List Nat) : Option (List Nat × List Nat) :=
  match s with
  | c :: s1 =>
    if c = 96 then
      match splitUntil 96 s1 with
      | some (txt, s2) =>
        if txt = [] then none else some (lit "<code>" ++ txt ++ lit "</code>", s2)
      | none => none
    else none
  | [] => none

def citationPass (sp : Nat → Bool) (s : List Nat) : List Nat := gsub (matchCitation sp) s

def unsourcedPass (sp : Nat → Bool) (s : List Nat) : List Nat := gsub (matchUnsourced sp) s

def linkPass (s : List Nat) : List Nat := gsub matchLink s

def boldPass (dot : Nat → Bool) (s : List Nat) : List Nat := gsub (matchBold dot) s

def codePass (s : List Nat) : List Nat := gsub matchCode s

/-- Common core of Python's `inline_format` and the embedded JavaScript's
`inlineFmt`: the two sources apply the same five substitutions with
textually identical patterns and replacements, in the same order (citation,
unsourced marker, generic link, bold, inline code); they differ only in the
host regex dialect's `\s` and `.` classes, which are passed in. -/
def inlineFormatP (sp dot : Nat → Bool) (s : List Nat) : List Nat :=
  codePass (boldPass dot (linkPass (unsourcedPass sp (citationPass sp s))))

/-- `inline_format` from `build_viewer.py` (server side, Python `re`). -/
def inline_format (s : List Nat) : List Nat := inlineFormatP pyIsSpace pyDot s

/-- `inlineFmt` from the embedded client script (JavaScript `RegExp`). -/
def inlineFmt (s : List Nat) : List Nat := inlineFormatP jsIsSpace jsDot s

example :
    inline_format (lit "[Source: \"X\", Y](http://a)") =
      lit "<a class=\"citation\" href=\"http://a\" target=\"_blank\" title=\"X\">[X, Y]</a>" := by
  decide

example :
    inline_format (lit "a **b** and [t](u) plus [Unsourced -- why] end") =
      lit ("a <strong>b</strong> and <a class=\"source-link\" href=\"u\" " ++
        "target=\"_blank\">t</a> plus <span class=\"unsourced\" title=\"why\">" ++
        "[Unsourced]</span> end") := by
  decide

/-- Decimal rendering of a number, as interpolated by Python f-strings and
JavaScript string concatenation. -/
def natLit (n : Nat) : List Nat := lit (toString n)

/-- Greedy-with-backtracking reading of `\s+(.+)$` applied to the rest of a
line (used by the header, bullet and numbered-list patterns of both
renderers).  The greedy `\s+` cedes characters to `(.+)` only when the
remainder would otherwise be empty; every captured character must be matched
by the host's `.` class. -/
def tailMatch (sp dot : Nat → Bool) (r : List Nat) : Option (List Nat) :=
  let w := (r.takeWhile sp).length
  if w = 0 then none
  else
    let text := r.drop w
    if text = [] then
      if 2 ≤ w then
        let cap := r.drop (w - 1)
        if cap.all dot then some cap else none
      else none
    else if text.all dot then some text else none

/-- `^(#{1,4})\s+(.+)$`: a run of five or more `#` never matches (backtracking
the bounded quantifier still faces a `#` where whitespace is required). -/
def matchHeader (sp dot : Nat → Bool) (l : List Nat) : Option (Nat × List Nat) :=
  let run := (l.takeWhile (fun c => c == 35)).length
  if run = 0 || 5 ≤ run then none
  else
    match tailMatch sp dot (l.drop run) with
    | some text => some (run, text)
    | none => none

/-- `^[-*]\s+(.+)$`. -/
def matchBullet (sp dot : Nat → Bool) : List Nat → Option (List Nat)
  | c :: rest => if c == 45 || c == 42 then tailMatch sp dot rest else none
  | [] => none

/-- `^\d+[.)]\s+(.+)$`: the digit run is maximal (digits are not `.` or `)`),
so the greedy `\d+` is deterministic. -/
def matchNumbered (sp dg dot : Nat → Bool) (l : List Nat) : Option (List Nat) :=
  let run := (l.takeWhile dg).length
  if run = 0 then none
  else
    match l.drop run with
    | c :: rest => if c == 46 || c == 41 then tailMatch sp dot rest else none
    | [] => none

/-- `[c.strip() for c in stripped.split("|")[1:-1]]` (Python) /
`s.split('|').slice(1, -1).map(c => c.trim())` (JavaScript). -/
def pipeCells (sp : Nat → Bool) (l : List Nat) : List (List Nat) :=
  (((splitOnC 124 l).drop 1).dropLast).map (strip sp)

/-- `re.match(r"^[-:]+$", c)` / `/^[-:]+$/.test(c)` on one cell. -/
def isSepCell (c : List Nat) : Bool :=
  !c.isEmpty && c.all (fun x => x == 45 || x == 58)

/-- A row all of whose cells are dash/colon separators is skipped; Python's
`all` and JavaScript's `every` are both true on an empty cell list. -/
def isSepRow (cells : List (List Nat)) : Bool := cells.all isSepCell

/-- `f"<h{level}>{inline_format(...)}</h{level}>"` with
`level = min(len(hashes) + 2, 6)` (both renderers). -/
def hLine (sp dot : Nat → Bool) (run : Nat) (text : List Nat) : List Nat :=
  lit "<h" ++ natLit (min (run + 2) 6) ++ lit ">" ++ inlineFormatP sp dot text ++
  lit "</h" ++ natLit (min (run + 2) 6) ++ lit ">"

/-- The loop of Python's `md_to_html` over the split lines.  State: `il` =
`in_list`, `it` = `in_table`, `thd` = `table_header_done` (written but never
read by the source; carried faithfully).  Each emitted element of the result
corresponds to one `result.append(...)`. -/
def pyGo (sp dg dot : Nat → Bool) : Bool → Bool → Bool → List (List Nat) → List (List Nat)
  | il, it, _, [] =>
    (if il then [lit "</ul>"] else []) ++ (if it then [lit "</tbody></table>"] else [])
  | il, it, thd, line :: rest =>
    let s := strip sp line
    if s.isEmpty then
      (if il then [lit "</ul>"] else []) ++
      (if it then [lit "</tbody></table>"] else []) ++
      [[]] ++ pyGo sp dg dot false false (if it then false else thd) rest
    else if s.contains 124 && s.head? == some 124 then
      let cells := pipeCells sp s
      if isSepRow cells then pyGo sp dg dot il it thd rest
      else if !it then
        [lit "<table class=\"debate-table\"><thead><tr>"] ++
        cells.map (fun c => lit "<th>" ++ inlineFormatP sp dot c ++ lit "</th>") ++
        [lit "</tr></thead><tbody>"] ++ pyGo sp dg dot il true true rest
      else
        [lit "<tr>"] ++
        cells.map (fun c => lit "<td>" ++ inlineFormatP sp dot c ++ lit "</td>") ++
        [lit "</tr>"] ++ pyGo sp dg dot il it thd rest
    else
      let closeT := if it then [lit "</tbody></table>"] else []
      let thd2 := if it then false else thd
      match matchHeader sp dot s with
      | some (run, text) =>
        closeT ++ (if il then [lit "</ul>"] else []) ++ [hLine sp dot run text] ++
        pyGo sp dg dot false false thd2 rest
      | none =>
        match matchBullet sp dot s with
        | some cap =>
          closeT ++ (if il then [] else [lit "<ul class=\"debate-list\">"]) ++
          [lit "  <li>" ++ inlineFormatP sp dot cap ++ lit "</li>"] ++
          pyGo sp dg dot true false thd2 rest
        | none =>
          match matchNumbered sp dg dot s with
          | some cap =>
            closeT ++ (if il then [] else [lit "<ul class=\"debate-list\">"]) ++
            [lit "  <li>" ++ inlineFormatP sp dot cap ++ lit "</li>"] ++
            pyGo sp dg dot true false thd2 rest
          | none =>
            closeT ++ (if il then [lit "</ul>"] else []) ++
            [lit "<p>" ++ inlineFormatP sp dot s ++ lit "</p>"] ++
            pyGo sp dg dot false false thd2 rest

/-- `bm` of the client renderer: the bullet pattern, else the numbered
pattern. -/
def jsBm (sp dg dot : Nat → Bool) (s : List Nat) : Option (List Nat) :=
  match matchBullet sp dot s with
  | some cap => some cap
  | none => matchNumbered sp dg dot s

/-- The loop of the embedded JavaScript `mdToHtml` over the split lines.
State: `il` = `inList`, `it` = `inTable`. -/
def jsGo (sp dg dot : Nat → Bool) : Bool → Bool → List (List Nat) → List (List Nat)
  | il, it, [] =>
    (if il then [lit "</ul>"] else []) ++ (if it then [lit "</tbody></table>"] else [])
  | il, it, line :: rest =>
    let s := strip sp line
    if s.isEmpty then
      (if il then [lit "</ul>"] else []) ++
      (if it then [lit "</tbody></table>"] else []) ++
      [[]] ++ jsGo sp dg dot false false rest
    else if s.head? == some 124 && s.contains 124 then
      let cells := pipeCells sp s
      if isSepRow cells then jsGo sp dg dot il it rest
      else if !it then
        [lit "<table class=\"debate-table\"><thead><tr>"] ++
        cells.map (fun c => lit "<th>" ++ inlineFormatP sp dot c ++ lit "</th>") ++
        [lit "</tr></thead><tbody>"] ++ jsGo sp dg dot il true rest
      else
        [lit "<tr>"] ++
        cells.map (fun c => lit "<td>" ++ inlineFormatP sp dot c ++ lit "</td>") ++
        [lit "</tr>"] ++ jsGo sp dg dot il it rest
    else
      let closeT := if it then [lit "</tbody></table>"] else []
      match matchHeader sp dot s with
      | some (run, text) =>
        closeT ++ (if il then [lit "</ul>"] else []) ++ [hLine sp dot run text] ++
        jsGo sp dg dot false false rest
      | none =>
        match jsBm sp dg dot s with
        | some cap =>
          closeT ++ (if il then [] else [lit "<ul class=\"debate-list\">"]) ++
          [lit "  <li>" ++ inlineFormatP sp dot cap ++ lit "</li>"] ++
          jsGo sp dg dot true false rest
        | none =>
          closeT ++ (if il then [lit "</ul>"] else []) ++
          [lit "<p>" ++ inlineFormatP sp dot s ++ lit "</p>"] ++
          jsGo sp dg dot false false rest

/-- `md_to_html` from `build_viewer.py`, parameterised by the host character
classes (instantiated with the Python classes below). -/
def pyRender (sp dg dot : Nat → Bool) (s : List Nat) : List Nat :=
  joinNl (pyGo sp dg dot false false false (splitOnC 10 s))

/-- `mdToHtml` from the embedded client script, parameterised by the host
character classes; `if (!text) return ''` short-circuits the empty string. -/
def jsRender (sp dg dot : Nat → Bool) (s : List Nat) : List Nat :=
  if s.isEmpty then [] else joinNl (jsGo sp dg dot false false (splitOnC 10 s))

/-- Server-side block renderer `md_to_html` (Python regex classes). -/
def md_to_html (s : List Nat) : List Nat := pyRender pyIsSpace pyIsDigit pyDot s

/-- Client-side block renderer `mdToHtml` (JavaScript regex classes). -/
def mdToHtml (s : List Nat) : List Nat := jsRender jsIsSpace jsIsDigit jsDot s

example :
    md_to_html (lit "| A | B |\n| --- | --- |\n| 1 | 2 |") =
      lit ("<table class=\"debate-table\"><thead><tr>\n<th>A</th>\n<th>B</th>\n" ++
        "</tr></thead><tbody>\n<tr>\n<td>1</td>\n<td>2</td>\n</tr>\n</tbody></table>") := by
  decide

example :
    md_to_html (lit "# Title\n\n- a\n- b\n\ntext") =
      lit "<h3>Title</h3>\n\n<ul class=\"debate-list\">\n  <li>a</li>\n  <li>b</li>\n</ul>\n\n<p>text</p>" := by
  decide

example : md_to_html [1635, 46, 32, 120] ≠ mdToHtml [1635, 46, 32, 120] := by decide

/-- All characters of a fragment lie in the region where the Python and
JavaScript character classes agree. -/
def Safe (l : List Nat) : Prop := ∀ c ∈ l, asciiSafe c = true

theorem safe_append {a b : List Nat} (ha : Safe a) (hb : Safe b) : Safe (a ++ b) := by
  intro c hc
  rcases List.mem_append.mp hc with h | h
  · exact ha c h
  · exact hb c h

theorem safe_of_subset {a b : List Nat} (hsub : a ⊆ b) (hb : Safe b) : Safe a :=
  fun c hc => hb c (hsub hc)

theorem dropWhile_congr {p q : Nat → Bool} {l : List Nat}
    (h : ∀ c ∈ l, p c = q c) : l.dropWhile p = l.dropWhile q := by
  induction l with
  | nil => rfl
  | cons c cs ih =>
    have hc : p c = q c := h c (by simp)
    simp only [List.dropWhile, hc]
    cases hq : q c
    · rfl
    · exact ih (fun x hx => h x (by simp [hx]))

theorem takeWhile_congr {p q : Nat → Bool} {l : List Nat}
    (h : ∀ c ∈ l, p c = q c) : l.takeWhile p = l.takeWhile q := by
  induction l with
  | nil => rfl
  | cons c cs ih =>
    have hc : p c = q c := h c (by simp)
    simp only [List.takeWhile, hc]
    cases hq : q c
    · rfl
    · rw [ih (fun x hx => h x (by simp [hx]))]

theorem all_congr {p q : Nat → Bool} {l : List Nat}
    (h : ∀ c ∈ l, p c = q c) : l.all p = l.all q := by
  induction l with
  | nil => rfl
  | cons c cs ih =>
    simp only [List.all_cons, h c (by simp),
      ih (fun x hx => h x (by simp [hx]))]

theorem dropWhile_subset (p : Nat → Bool) (l : List Nat) : l.dropWhile p ⊆ l := by
  induction l with
  | nil => exact fun _ h => h
  | cons c cs ih =>
    simp only [List.dropWhile]
    cases p c
    · exact fun _ h => h
    · exact fun x hx => List.mem_cons_of_mem c (ih hx)

theorem strip_subset (sp : Nat → Bool) (l : List Nat) : strip sp l ⊆ l := by
  intro x hx
  simp only [strip, List.mem_reverse] at hx
  have h1 := dropWhile_subset sp (l.dropWhile sp).reverse hx
  rw [List.mem_reverse] at h1
  exact dropWhile_subset sp l h1

theorem strip_congr {l : List Nat} (h : Safe l) :
    strip pyIsSpace l = strip jsIsSpace l := by
  unfold strip
  rw [dropWhile_congr (fun c hc => sp_agree (h c hc))]
  rw [dropWhile_congr (fun c hc => sp_agree (h c (dropWhile_subset jsIsSpace l
    (List.mem_reverse.mp hc))))]

theorem splitOnC_subset (sep : Nat) :
    ∀ (l : List Nat), ∀ part ∈ splitOnC sep l, part ⊆ l := by
  intro l
  induction l with
  | nil =>
    intro part hp
    simp only [splitOnC, List.mem_singleton] at hp
    subst hp
    exact fun _ h => h
  | cons c cs ih =>
    intro part hp
    simp only [splitOnC] at hp
    by_cases hc : c = sep
    · rw [if_pos hc] at hp
      rcases List.mem_cons.mp hp with h | h
      · subst h; exact fun _ h => (List.not_mem_nil _ h).elim
      · exact fun x hx => List.mem_cons_of_mem c (ih part h hx)
    · rw [if_neg hc] at hp
      rcases hsplit : splitOnC sep cs with - | ⟨p, ps⟩
      · rw [hsplit] at hp
        simp only [List.mem_singleton] at hp
        subst hp
        intro x hx
        simp only [List.mem_singleton] at hx
        simp [hx]
      · rw [hsplit] at hp
        rcases List.mem_cons.mp hp with h | h
        · subst h
          intro x hx
          rcases List.mem_cons.mp hx with h2 | h2
          · simp [h2]
          · exact List.mem_cons_of_mem c (ih p (by simp [hsplit]) h2)
        · exact fun x hx => List.mem_cons_of_mem c (ih part (by simp [hsplit, h]) hx)

theorem splitUntil_subset (sep : Nat) :
    ∀ (l a b : List Nat), splitUntil sep l = some (a, b) → a ⊆ l ∧ b ⊆ l := by
  intro l
  induction l with
  | nil => intro a b h; simp [splitUntil] at h
  | cons c cs ih =>
    intro a b h
    simp only [splitUntil] at h
    by_cases hc : c = sep
    · rw [if_pos hc] at h
      simp only [Option.some.injEq, Prod.mk.injEq] at h
      obtain ⟨ha, hb⟩ := h
      subst ha; subst hb
      exact ⟨fun _ h => (List.not_mem_nil _ h).elim,
        fun x hx => List.mem_cons_of_mem c hx⟩
    · rw [if_neg hc] at h
      rcases hsplit : splitUntil sep cs with - | ⟨p, q⟩
      · rw [hsplit] at h; simp at h
      · rw [hsplit] at h
        simp only [Option.map_some', Option.some.injEq, Prod.mk.injEq] at h
        obtain ⟨ha, hb⟩ := h
        subst ha; subst hb
        obtain ⟨hp, hq⟩ := ih p q hsplit
        constructor
        · intro x hx
          rcases List.mem_cons.mp hx with h2 | h2
          · simp [h2]
          · exact List.mem_cons_of_mem c (hp h2)
        · exact fun x hx => List.mem_cons_of_mem c (hq hx)

theorem safe_nil : Safe [] := fun c hc => absurd hc (List.not_mem_nil c)

theorem safe_of_all {l : List Nat} (h : l.all asciiSafe = true) : Safe l :=
  fun c hc => List.all_eq_true.mp h c hc

theorem safe_tail {c : Nat} {l : List Nat} (h : Safe (c :: l)) : Safe l :=
  fun x hx => h x (List.mem_cons_of_mem c hx)

theorem safe_head {c : Nat} {l : List Nat} (h : Safe (c :: l)) : asciiSafe c = true :=
  h c (List.mem_cons_self c l)

theorem safe_cons {c : Nat} {l : List Nat} (hc : asciiSafe c = true) (h : Safe l) :
    Safe (c :: l) := by
  intro x hx
  rcases List.mem_cons.mp hx with h2 | h2
  · subst h2; exact hc
  · exact h x h2

theorem sp_agree_on {l : List Nat} (h : Safe l) : ∀ c ∈ l, pyIsSpace c = jsIsSpace c :=
  fun c hc => sp_agree (h c hc)

theorem dg_agree_on {l : List Nat} (h : Safe l) : ∀ c ∈ l, pyIsDigit c = jsIsDigit c :=
  fun c hc => dg_agree (h c hc)

theorem dot_agree_on {l : List Nat} (h : Safe l) : ∀ c ∈ l, pyDot c = jsDot c :=
  fun c hc => dot_agree (h c hc)

theorem dropPre_subset :
    ∀ (p l r : List Nat), dropPre p l = some r → r ⊆ l := by
  intro p
  induction p with
  | nil =>
    intro l r h
    simp only [dropPre, Option.some.injEq] at h
    subst h
    exact fun _ h => h
  | cons a ps ih =>
    intro l r h
    cases l with
    | nil => simp [dropPre] at h
    | cons c cs =>
      simp only [dropPre] at h
      by_cases hc : c = a
      · rw [if_pos hc] at h
        exact fun x hx => List.mem_cons_of_mem c (ih cs r h hx)
      · rw [if_neg hc] at h; exact absurd h (by simp)

theorem citationRep_safe {title url : List Nat} {extra : Option (List Nat)}
    (ht : Safe title) (hu : Safe url)
    (he : ∀ e, extra = some e → Safe e) :
    Safe (citationRep title extra url) := by
  have hx : Safe (citationExtra extra) := by
    rcases extra with - | e
    · exact safe_nil
    · rcases e with - | ⟨x, xs⟩
      · exact safe_nil
      · exact safe_append (safe_of_all (by decide)) (he (x :: xs) rfl)
  intro c hc
  unfold citationRep at hc
  simp only [List.append_assoc, List.mem_append] at hc
  rcases hc with h | h | h | h | h | h | h | h
  · exact safe_of_all (by decide) c h
  · exact hu c h
  · exact safe_of_all (by decide) c h
  · exact ht c h
  · exact safe_of_all (by decide) c h
  · exact ht c h
  · exact hx c h
  · exact safe_of_all (by decide) c h

theorem citationFinish_safety {title : List Nat} {extra : Option (List Nat)}
    {s7 rep rest : List Nat}
    (ht : Safe title) (he : ∀ e, extra = some e → Safe e) (h7 : Safe s7)
    (h : citationFinish title extra s7 = some (rep, rest)) :
    Safe rep ∧ Safe rest := by
  unfold citationFinish at h
  split at h
  · rename_i c s8
    split at h
    · rename_i hc
      split at h
      · rename_i url s9 hsplit
        split at h
        · exact absurd h (by simp)
        · simp only [Option.some.injEq, Prod.mk.injEq] at h
          obtain ⟨hrep, hrest⟩ := h
          subst hrep; subst hrest
          obtain ⟨hu, hs9⟩ := splitUntil_subset 41 s8 url s9 hsplit
          have h8 : Safe s8 := safe_tail h7
          exact ⟨citationRep_safe ht (safe_of_subset hu h8) he,
            safe_of_subset hs9 h8⟩
      · exact absurd h (by simp)
    · exact absurd h (by simp)
  · exact absurd h (by simp)

theorem matchCitation_safety {sp : Nat → Bool} {s rep rest : List Nat}
    (hS : Safe s) (h : matchCitation sp s = some (rep, rest)) :
    Safe rep ∧ Safe rest := by
  unfold matchCitation at h
  split at h
  · exact absurd h (by simp)
  · rename_i s1 h1
    have hs1 : Safe s1 := safe_of_subset (dropPre_subset _ _ _ h1) hS
    split at h
    · rename_i c s3 h2
      have hs3 : Safe s3 :=
        safe_tail (safe_of_subset (h2 ▸ dropWhile_subset sp s1) hs1)
      split at h
      · rename_i hc
        split at h
        · rename_i title s4 h3
          obtain ⟨hti, hs4⟩ := splitUntil_subset 34 s3 title s4 h3
          have htitle : Safe title := safe_of_subset hti hs3
          have hs4s : Safe s4 := safe_of_subset hs4 hs3
          split at h
          · exact absurd h (by simp)
          · split at h
            · rename_i d s5
              have hs5 : Safe s5 := safe_tail hs4s
              split at h
              · rename_i hd
                split at h
                · rename_i extra s7 h5
                  have hsub := splitUntil_subset 93 (s5.dropWhile sp) extra s7 h5
                  have hdw : Safe (s5.dropWhile sp) :=
                    safe_of_subset (dropWhile_subset sp s5) hs5
                  exact citationFinish_safety htitle
                    (fun e hee => by
                      injection hee with hee2
                      exact hee2 ▸ safe_of_subset hsub.1 hdw)
                    (safe_of_subset hsub.2 hdw) h
                · exact absurd h (by simp)
              · split at h
                · exact citationFinish_safety htitle (fun e hee => by simp at hee)
                    hs5 h
                · exact absurd h (by simp)
            · exact absurd h (by simp)
        · exact absurd h (by simp)
      · exact absurd h (by simp)
    · exact absurd h (by simp)

theorem matchCitation_congr {s : List Nat} (hS : Safe s) :
    matchCitation pyIsSpace s = matchCitation jsIsSpace s := by
  unfold matchCitation
  split
  · rfl
  · rename_i s1 h1
    have hs1 : Safe s1 := safe_of_subset (dropPre_subset _ _ _ h1) hS
    rw [dropWhile_congr (sp_agree_on hs1)]
    split
    · rename_i c s3 h2
      have hs3 : Safe s3 :=
        safe_tail (safe_of_subset (h2 ▸ dropWhile_subset jsIsSpace s1) hs1)
      split
      · split
        · rename_i title s4 h3
          obtain ⟨-, hs4⟩ := splitUntil_subset 34 s3 title s4 h3
          have hs4s : Safe s4 := safe_of_subset hs4 hs3
          split
          · rfl
          · split
            · rename_i d s5
              have hs5 : Safe s5 := safe_tail hs4s
              split
              · rw [dropWhile_congr (sp_agree_on hs5)]
              · rfl
            · rfl
        · rfl
      · rfl
    · rfl

theorem matchUnsourced_safety {sp : Nat → Bool} {s rep rest : List Nat}
    (hS : Safe s) (h : matchUnsourced sp s = some (rep, rest)) :
    Safe rep ∧ Safe rest := by
  unfold matchUnsourced at h
  split at h
  · exact absurd h (by simp)
  · rename_i s1 h1
    have hs1 : Safe s1 := safe_of_subset (dropPre_subset _ _ _ h1) hS
    split at h
    · exact absurd h (by simp)
    · rename_i s3 h2
      have hs3 : Safe s3 :=
        safe_of_subset (dropPre_subset _ _ _ h2)
          (safe_of_subset (dropWhile_subset sp s1) hs1)
      split at h
      · exact absurd h (by simp)
      · rename_i pre rest2 h3
        obtain ⟨hpre, hrest2⟩ := splitUntil_subset 93 s3 pre rest2 h3
        split at h
        · exact absurd h (by simp)
        · simp only [Option.some.injEq, Prod.mk.injEq] at h
          obtain ⟨hrep, hrest⟩ := h
          subst hrep; subst hrest
          refine ⟨safe_append (safe_append (safe_of_all (by decide))
            (safe_of_subset (List.drop_subset _ _) (safe_of_subset hpre hs3)))
            (safe_of_all (by decide)), safe_of_subset hrest2 hs3⟩

theorem matchUnsourced_congr {s : List Nat} (hS : Safe s) :
    matchUnsourced pyIsSpace s = matchUnsourced jsIsSpace s := by
  unfold matchUnsourced
  split
  · rfl
  · rename_i s1 h1
    have hs1 : Safe s1 := safe_of_subset (dropPre_subset _ _ _ h1) hS
    rw [dropWhile_congr (sp_agree_on hs1)]
    split
    · rfl
    · rename_i s3 h2
      have hs3 : Safe s3 :=
        safe_of_subset (dropPre_subset _ _ _ h2)
          (safe_of_subset (dropWhile_subset jsIsSpace s1) hs1)
      rw [takeWhile_congr (sp_agree_on hs3)]

theorem matchLink_safety {s rep rest : List Nat}
    (hS : Safe s) (h : matchLink s = some (rep, rest)) :
    Safe rep ∧ Safe rest := by
  unfold matchLink at h
  split at h
  · rename_i c s1
    split at h
    · rename_i hc
      split at h
      · rename_i txt s2 h1
        obtain ⟨htxt, hs2⟩ := splitUntil_subset 93 s1 txt s2 h1
        have hs1 : Safe s1 := safe_tail hS
        split at h
        · exact absurd h (by simp)
        · split at h
          · rename_i d s3
            split at h
            · rename_i hd
              split at h
              · rename_i url s4 h3
                obtain ⟨hurl, hs4⟩ := splitUntil_subset 41 s3 url s4 h3
                have hs3 : Safe s3 :=
                  safe_tail (safe_of_subset hs2 hs1)
                split at h
                · exact absurd h (by simp)
                · simp only [Option.some.injEq, Prod.mk.injEq] at h
                  obtain ⟨hrep, hrest⟩ := h
                  subst hrep; subst hrest
                  refine ⟨safe_append (safe_append (safe_append (safe_append
                    (safe_of_all (by decide)) (safe_of_subset hurl hs3))
                    (safe_of_all (by decide))) (safe_of_subset htxt hs1))
                    (safe_of_all (by decide)), safe_of_subset hs4 hs3⟩
              · exact absurd h (by simp)
            · exact absurd h (by simp)
          · exact absurd h (by simp)
      · exact absurd h (by simp)
    · exact absurd h (by simp)
  · exact absurd h (by simp)

theorem boldScan_safety {dot : Nat → Bool} :
    ∀ {l acc cap rest : List Nat}, Safe l → Safe acc →
      boldScan dot acc l = some (cap, rest) → Safe cap ∧ Safe rest := by
  intro l
  induction l with
  | nil => intro acc cap rest _ _ h; simp [boldScan] at h
  | cons c t ih =>
    intro acc cap rest hl hacc h
    unfold boldScan at h
    split at h
    · simp only [Option.some.injEq, Prod.mk.injEq] at h
      obtain ⟨hrep, hrest⟩ := h
      subst hrep; subst hrest
      exact ⟨hacc, safe_of_subset (List.drop_subset _ _) (safe_tail hl)⟩
    · split at h
      · exact ih (safe_tail hl) (safe_append hacc
          (safe_cons (safe_head hl) safe_nil)) h
      · exact absurd h (by simp)

theorem boldScan_congr :
    ∀ {l : List Nat} (acc : List Nat), Safe l →
      boldScan pyDot acc l = boldScan jsDot acc l := by
  intro l
  induction l with
  | nil => intro acc _; rfl
  | cons c t ih =>
    intro acc hl
    unfold boldScan
    rw [dot_agree (safe_head hl)]
    by_cases hcl : (!acc.isEmpty && ((c :: t).take 2 == [42, 42])) = true
    · simp only [if_pos hcl]
    · simp only [if_neg hcl]
      by_cases hdc : jsDot c = true
      · simp only [if_pos hdc]
        exact ih (acc ++ [c]) (safe_tail hl)
      · simp only [if_neg hdc]

theorem matchBold_safety {dot : Nat → Bool} {s rep rest : List Nat}
    (hS : Safe s) (h : matchBold dot s = some (rep, rest)) :
    Safe rep ∧ Safe rest := by
  unfold matchBold at h
  split at h
  · exact absurd h (by simp)
  · rename_i s1 h1
    have hs1 : Safe s1 := safe_of_subset (dropPre_subset _ _ _ h1) hS
    split at h
    · rename_i cap rest2 h2
      simp only [Option.some.injEq, Prod.mk.injEq] at h
      obtain ⟨hrep, hrest⟩ := h
      subst hrep; subst hrest
      obtain ⟨hcap, hrest2⟩ := boldScan_safety hs1 safe_nil h2
      exact ⟨safe_append (safe_append (safe_of_all (by decide)) hcap)
        (safe_of_all (by decide)), hrest2⟩
    · exact absurd h (by simp)

theorem matchBold_congr {s : List Nat} (hS : Safe s) :
    matchBold pyDot s = matchBold jsDot s := by
  unfold matchBold
  split
  · rfl
  · rename_i s1 h1
    have hs1 : Safe s1 := safe_of_subset (dropPre_subset _ _ _ h1) hS
    rw [boldScan_congr [] hs1]

theorem matchCode_safety {s rep rest : List Nat}
    (hS : Safe s) (h : matchCode s = some (rep, rest)) :
    Safe rep ∧ Safe rest := by
  unfold matchCode at h
  split at h
  · rename_i c s1
    split at h
    · rename_i hc
      split at h
      · rename_i txt s2 h1
        obtain ⟨htxt, hs2⟩ := splitUntil_subset 96 s1 txt s2 h1
        have hs1 : Safe s1 := safe_tail hS
        split at h
        · exact absurd h (by simp)
        · simp only [Option.some.injEq, Prod.mk.injEq] at h
          obtain ⟨hrep, hrest⟩ := h
          subst hrep; subst hrest
          exact ⟨safe_append (safe_append (safe_of_all (by decide))
            (safe_of_subset htxt hs1)) (safe_of_all (by decide)),
            safe_of_subset hs2 hs1⟩
      · exact absurd h (by simp)
    · exact absurd h (by simp)
  · exact absurd h (by simp)

/-- A matcher preserves safety: on safe input, a successful match yields a
safe replacement and a safe remainder. -/
def SafeStep (m : List Nat → Option (List Nat × List Nat)) : Prop :=
  ∀ t rep rest, Safe t → m t = some (rep, rest) → Safe rep ∧ Safe rest

theorem gsubGo_congr {m₁ m₂ : List Nat → Option (List Nat × List Nat)}
    (hc : ∀ t, Safe t → m₁ t = m₂ t) (hs : SafeStep m₂) :
    ∀ (fuel : Nat) {l : List Nat}, Safe l → gsubGo m₁ fuel l = gsubGo m₂ fuel l := by
  intro fuel
  induction fuel with
  | zero => intro l _; rfl
  | succ f ih =>
    intro l hl
    cases l with
    | nil => rfl
    | cons c cs =>
      simp only [gsubGo]
      rw [hc (c :: cs) hl]
      split
      · rename_i rep rest hm
        rw [ih (hs (c :: cs) rep rest hl hm).2]
      · rw [ih (safe_tail hl)]

theorem gsubGo_safe {m : List Nat → Option (List Nat × List Nat)}
    (hs : SafeStep m) :
    ∀ (fuel : Nat) {l : List Nat}, Safe l → Safe (gsubGo m fuel l) := by
  intro fuel
  induction fuel with
  | zero => intro l hl; exact hl
  | succ f ih =>
    intro l hl
    cases l with
    | nil => exact safe_nil
    | cons c cs =>
      simp only [gsubGo]
      split
      · rename_i rep rest hm
        obtain ⟨h1, h2⟩ := hs (c :: cs) rep rest hl hm
        exact safe_append h1 (ih h2)
      · exact safe_cons (safe_head hl) (ih (safe_tail hl))

theorem citationPass_congr {s : List Nat} (h : Safe s) :
    citationPass pyIsSpace s = citationPass jsIsSpace s :=
  gsubGo_congr (fun _ ht => matchCitation_congr ht)
    (fun _ _ _ ht hm => matchCitation_safety ht hm) s.length h

theorem citationPass_safe {sp : Nat → Bool} {s : List Nat} (h : Safe s) :
    Safe (citationPass sp s) :=
  gsubGo_safe (fun _ _ _ ht hm => matchCitation_safety ht hm) s.length h

theorem unsourcedPass_congr {s : List Nat} (h : Safe s) :
    unsourcedPass pyIsSpace s = unsourcedPass jsIsSpace s :=
  gsubGo_congr (fun _ ht => matchUnsourced_congr ht)
    (fun _ _ _ ht hm => matchUnsourced_safety ht hm) s.length h

theorem unsourcedPass_safe {sp : Nat → Bool} {s : List Nat} (h : Safe s) :
    Safe (unsourcedPass sp s) :=
  gsubGo_safe (fun _ _ _ ht hm => matchUnsourced_safety ht hm) s.length h

theorem linkPass_safe {s : List Nat} (h : Safe s) : Safe (linkPass s) :=
  gsubGo_safe (fun _ _ _ ht hm => matchLink_safety ht hm) s.length h

theorem boldPass_congr {s : List Nat} (h : Safe s) :
    boldPass pyDot s = boldPass jsDot s :=
  gsubGo_congr (fun _ ht => matchBold_congr ht)
    (fun _ _ _ ht hm => matchBold_safety ht hm) s.length h

theorem inlineFormatP_congr {s : List Nat} (h : Safe s) :
    inlineFormatP pyIsSpace pyDot s = inlineFormatP jsIsSpace jsDot s := by
  unfold inlineFormatP
  rw [citationPass_congr h]
  rw [unsourcedPass_congr (citationPass_safe h)]
  rw [boldPass_congr (linkPass_safe (unsourcedPass_safe (citationPass_safe h)))]

/-- The two inline formatters agree on content whose characters lie in the
region where the host regex dialects agree. -/
theorem inline_congr {s : List Nat} (h : Safe s) : inline_format s = inlineFmt s :=
  inlineFormatP_congr h

theorem tailMatch_sub {sp dot : Nat → Bool} {r cap : List Nat}
    (h : tailMatch sp dot r = some cap) : cap ⊆ r := by
  simp only [tailMatch] at h
  split at h
  · exact absurd h (by simp)
  · split at h
    · split at h
      · split at h
        · simp only [Option.some.injEq] at h
          subst h
          exact List.drop_subset _ _
        · exact absurd h (by simp)
      · exact absurd h (by simp)
    · split at h
      · simp only [Option.some.injEq] at h
        subst h
        exact List.drop_subset _ _
      · exact absurd h (by simp)

theorem tailMatch_congr {r : List Nat} (h : Safe r) :
    tailMatch pyIsSpace pyDot r = tailMatch jsIsSpace jsDot r := by
  simp only [tailMatch]
  rw [takeWhile_congr (sp_agree_on h)]
  rw [all_congr (dot_agree_on
    (safe_of_subset (List.drop_subset ((r.takeWhile jsIsSpace).length - 1) r) h))]
  rw [all_congr (dot_agree_on
    (safe_of_subset (List.drop_subset (r.takeWhile jsIsSpace).length r) h))]

theorem matchHeader_sub {sp dot : Nat → Bool} {l : List Nat} {run : Nat}
    {text : List Nat} (h : matchHeader sp dot l = some (run, text)) : text ⊆ l := by
  simp only [matchHeader] at h
  split at h
  · exact absurd h (by simp)
  · split at h
    · rename_i cap heq
      simp only [Option.some.injEq, Prod.mk.injEq] at h
      obtain ⟨-, h2⟩ := h
      subst h2
      exact fun x hx => List.drop_subset _ l (tailMatch_sub heq hx)
    · exact absurd h (by simp)

theorem matchHeader_congr {l : List Nat} (h : Safe l) :
    matchHeader pyIsSpace pyDot l = matchHeader jsIsSpace jsDot l := by
  simp only [matchHeader]
  rw [tailMatch_congr (safe_of_subset (List.drop_subset _ _) h)]

theorem matchBullet_sub {sp dot : Nat → Bool} {l cap : List Nat}
    (h : matchBullet sp dot l = some cap) : cap ⊆ l := by
  cases l with
  | nil => simp [matchBullet] at h
  | cons c rest =>
    simp only [matchBullet] at h
    split at h
    · exact fun x hx => List.mem_cons_of_mem c (tailMatch_sub h hx)
    · exact absurd h (by simp)

theorem matchBullet_congr {l : List Nat} (h : Safe l) :
    matchBullet pyIsSpace pyDot l = matchBullet jsIsSpace jsDot l := by
  cases l with
  | nil => rfl
  | cons c rest =>
    simp only [matchBullet]
    split
    · exact tailMatch_congr (safe_tail h)
    · rfl

theorem matchNumbered_sub {sp dg dot : Nat → Bool} {l cap : List Nat}
    (h : matchNumbered sp dg dot l = some cap) : cap ⊆ l := by
  simp only [matchNumbered] at h
  split at h
  · exact absurd h (by simp)
  · split at h
    · rename_i c rest heq
      split at h
      · intro x hx
        have h1 : x ∈ c :: rest := List.mem_cons_of_mem c (tailMatch_sub h hx)
        rw [← heq] at h1
        exact List.drop_subset _ l h1
      · exact absurd h (by simp)
    · exact absurd h (by simp)

theorem matchNumbered_congr {l : List Nat} (h : Safe l) :
    matchNumbered pyIsSpace pyIsDigit pyDot l
      = matchNumbered jsIsSpace jsIsDigit jsDot l := by
  simp only [matchNumbered]
  rw [takeWhile_congr (dg_agree_on h)]
  split
  · rfl
  · split
    · rename_i c rest heq
      split
      · have hsub : Safe (c :: rest) := by
          rw [← heq]
          exact safe_of_subset (List.drop_subset _ _) h
        exact tailMatch_congr (safe_tail hsub)
      · rfl
    · rfl

theorem jsBm_congr {l : List Nat} (h : Safe l) :
    jsBm pyIsSpace pyIsDigit pyDot l = jsBm jsIsSpace jsIsDigit jsDot l := by
  unfold jsBm
  rw [matchBullet_congr h, matchNumbered_congr h]

theorem pipeCells_sub {sp : Nat → Bool} {l : List Nat} :
    ∀ cell ∈ pipeCells sp l, cell ⊆ l := by
  intro cell hc
  simp only [pipeCells, List.mem_map] at hc
  obtain ⟨part, hpart, heq⟩ := hc
  subst heq
  intro x hx
  have h1 := strip_subset sp part hx
  have h2 : part ∈ splitOnC 124 l :=
    List.drop_subset 1 _ ((List.dropLast_sublist _).subset hpart)
  exact splitOnC_subset 124 l part h2 h1

theorem pipeCells_congr {l : List Nat} (h : Safe l) :
    pipeCells pyIsSpace l = pipeCells jsIsSpace l := by
  unfold pipeCells
  refine List.map_congr_left (fun part hp => strip_congr ?_)
  refine safe_of_subset (fun x hx => ?_) h
  have h2 : part ∈ splitOnC 124 l :=
    List.drop_subset 1 _ ((List.dropLast_sublist _).subset hp)
  exact splitOnC_subset 124 l part h2 hx

theorem pipeCells_safe {sp : Nat → Bool} {l : List Nat} (h : Safe l) :
    ∀ cell ∈ pipeCells sp l, Safe cell :=
  fun cell hc => safe_of_subset (pipeCells_sub cell hc) h

theorem hLine_congr {run : Nat} {text : List Nat} (h : Safe text) :
    hLine pyIsSpace pyDot run text = hLine jsIsSpace jsDot run text := by
  unfold hLine
  rw [inlineFormatP_congr h]

theorem thMap_congr {cells : List (List Nat)} (h : ∀ c ∈ cells, Safe c) :
    cells.map (fun c => lit "<th>" ++ inlineFormatP pyIsSpace pyDot c ++ lit "</th>")
      = cells.map (fun c => lit "<th>" ++ inlineFormatP jsIsSpace jsDot c ++ lit "</th>") :=
  List.map_congr_left (fun c hc => by rw [inlineFormatP_congr (h c hc)])

theorem tdMap_congr {cells : List (List Nat)} (h : ∀ c ∈ cells, Safe c) :
    cells.map (fun c => lit "<td>" ++ inlineFormatP pyIsSpace pyDot c ++ lit "</td>")
      = cells.map (fun c => lit "<td>" ++ inlineFormatP jsIsSpace jsDot c ++ lit "</td>") :=
  List.map_congr_left (fun c hc => by rw [inlineFormatP_congr (h c hc)])

/-- The two per-line state machines (Python `md_to_html` loop with its dead
`table_header_done` flag, JavaScript `mdToHtml` loop) emit the same output
from corresponding states, on lines whose characters lie in the agreement
region of the two regex dialects. -/
theorem go_congr :
    ∀ (lines : List (List Nat)), (∀ l ∈ lines, Safe l) →
      ∀ (il it thd : Bool),
        pyGo pyIsSpace pyIsDigit pyDot il it thd lines
          = jsGo jsIsSpace jsIsDigit jsDot il it lines := by
  intro lines
  induction lines with
  | nil => intro _ il it thd; rfl
  | cons line rest ih =>
    intro hl il it thd
    have hline : Safe line := hl line (List.mem_cons_self line rest)
    have hrest : ∀ l ∈ rest, Safe l := fun l hm => hl l (List.mem_cons_of_mem line hm)
    simp only [pyGo, jsGo]
    rw [strip_congr hline]
    have hs : Safe (strip jsIsSpace line) := safe_of_subset (strip_subset _ _) hline
    by_cases hE : (strip jsIsSpace line).isEmpty = true
    · simp only [if_pos hE]
      rw [ih hrest false false (if it then false else thd)]
    · simp only [if_neg hE]
      rw [show ((strip jsIsSpace line).contains 124
            && ((strip jsIsSpace line).head? == some 124))
          = (((strip jsIsSpace line).head? == some 124)
            && (strip jsIsSpace line).contains 124) from Bool.and_comm _ _]
      by_cases hP : (((strip jsIsSpace line).head? == some 124)
          && (strip jsIsSpace line).contains 124) = true
      · simp only [if_pos hP]
        rw [pipeCells_congr hs]
        by_cases hSep : isSepRow (pipeCells jsIsSpace (strip jsIsSpace line)) = true
        · simp only [if_pos hSep]
          exact ih hrest il it thd
        · simp only [if_neg hSep]
          by_cases hIT : (!it) = true
          · simp only [if_pos hIT]
            rw [thMap_congr (pipeCells_safe hs)]
            rw [ih hrest il true true]
          · simp only [if_neg hIT]
            rw [tdMap_congr (pipeCells_safe hs)]
            rw [ih hrest il it thd]
      · simp only [if_neg hP]
        rw [matchHeader_congr hs]
        rcases hH : matchHeader jsIsSpace jsDot (strip jsIsSpace line)
          with - | ⟨run, text⟩
        · dsimp only
          rw [matchBullet_congr hs]
          simp only [jsBm]
          rcases hB : matchBullet jsIsSpace jsDot (strip jsIsSpace line) with - | cap
          · dsimp only
            rw [matchNumbered_congr hs]
            rcases hN : matchNumbered jsIsSpace jsIsDigit jsDot (strip jsIsSpace line)
              with - | cap2
            · dsimp only
              rw [inlineFormatP_congr hs]
              rw [ih hrest false false (if it then false else thd)]
            · dsimp only
              have hcap : Safe cap2 := safe_of_subset (matchNumbered_sub hN) hs
              rw [inlineFormatP_congr hcap]
              rw [ih hrest true false (if it then false else thd)]
          · dsimp only
            have hcap : Safe cap := safe_of_subset (matchBullet_sub hB) hs
            rw [inlineFormatP_congr hcap]
            rw [ih hrest true false (if it then false else thd)]
        · dsimp only
          have htext : Safe text := safe_of_subset (matchHeader_sub hH) hs
          rw [hLine_congr htext]
          rw [ih hrest false false (if it then false else thd)]

/-- The server-side and client-side block renderers agree on content whose
characters lie in the agreement region of the two regex dialects. -/
theorem render_congr {s : List Nat} (h : Safe s) : md_to_html s = mdToHtml s := by
  cases s with
  | nil => rfl
  | cons c cs =>
    unfold md_to_html mdToHtml pyRender jsRender
    rw [if_neg (by simp : ¬((c :: cs).isEmpty = true))]
    have hlines : ∀ l ∈ splitOnC 10 (c :: cs), Safe l :=
      fun l hm => safe_of_subset (splitOnC_subset 10 (c :: cs) l hm) h
    rw [go_congr (splitOnC 10 (c :: cs)) hlines false false false]

/-! ## The state document and the CLI of `main` -/

/-- One transcript entry, as constructed by the `--add` branch of `main`. -/
structure Entry where
  round : Int
  agent : String
  content : String
  type : String
  timestamp : String
deriving DecidableEq

/-- The persisted state document (`debate-output/state.json`). -/
structure DebateState where
  topic : String
  status : String
  thinking : Option String
  current_round : Int
  total_rounds : Int
  version : Nat
  entries : List Entry
deriving DecidableEq

/-- `load_state`: a present file yields its parsed document; a missing file
(`none`) yields the fresh-state defaults. -/
def load_state : Option DebateState → DebateState
  | some st => st
  | none =>
    { topic := "", status := "in_progress", thinking := none,
      current_round := 1, total_rounds := 3, version := 0, entries := [] }

/-- `save_state`: `state["version"] = state.get("version", 0) + 1`, then the
document is written out. -/
def save_state (st : DebateState) : DebateState :=
  { st with version := st.version + 1 }

/-- Python truthiness of an optional string CLI argument: `None` and the
empty string are falsy. -/
def pyTruthyS : Option String → Bool
  | none => false
  | some t => !(t == "")

/-- Python truthiness of an optional integer CLI argument: `None` and `0` are
falsy. -/
def pyTruthyI : Option Int → Bool
  | none => false
  | some n => !(n == 0)

/-- `a or d` on an optional-integer argument (`args.round or
state.get("current_round", 1)`). -/
def pyOrI (a : Option Int) (d : Int) : Int :=
  if pyTruthyI a then a.getD 0 else d

/-- `a or d` on an optional-string argument (`args.agent or "unknown"`). -/
def pyOrS (a : Option String) (d : String) : String :=
  if pyTruthyS a then a.getD "" else d

/-- ASCII model of `str.lower()` / `String.prototype.toLowerCase()`; the
program only lowercases agent keys and the `"none"` sentinel, which are
ASCII. -/
def asciiLower (s : String) : String :=
  String.mk (s.data.map
    (fun c => if 65 ≤ c.toNat ∧ c.toNat ≤ 90 then Char.ofNat (c.toNat + 32) else c))

/-- The argparse surface of `main`.  `type` carries `--type`, whose argparse
default is `"turn"`; `init`, `status`, `thinking`, `content-file` and
`content` are optional strings; `round` and `set-round` are optional
integers; `add`, `serve` and `stop-server` are boolean flags. -/
structure Args where
  init : Option String
  add : Bool
  agent : Option String
  round : Option Int
  content_file : Option String
  content : Option String
  type : String
  status : Option String
  thinking : Option String
  set_round : Option Int
  serve : Bool
  stop_server : Bool
deriving DecidableEq

/-- The `--init` branch of `main`: a truthy topic resets topic, status,
thinking, current round, version and entries (`total_rounds` is untouched). -/
def applyInit (a : Args) (st : DebateState) : DebateState :=
  if pyTruthyS a.init then
    { st with
      topic := a.init.getD "",
      status := "in_progress",
      thinking := none,
      current_round := 1,
      version := 0,
      entries := [] }
  else st

/-- Content resolution of the `--add` branch: a truthy `--content-file` whose
path exists in the file system `fs` is read; otherwise a truthy inline
`--content` is used; otherwise the content is empty. -/
def resolveContent (fs : String → Option String) (a : Args) : String :=
  if pyTruthyS a.content_file && (fs (a.content_file.getD "")).isSome then
    (fs (a.content_file.getD "")).getD ""
  else if pyTruthyS a.content then a.content.getD ""
  else ""

/-- The `--add` branch of `main`: appends one entry; `now` is the wall-clock
display string captured by `datetime.now().strftime("%H:%M")`. -/
def applyAdd (fs : String → Option String) (now : String) (a : Args)
    (st : DebateState) : DebateState :=
  if a.add then
    { st with entries := st.entries ++
        [{ round := pyOrI a.round st.current_round,
           agent := pyOrS a.agent "unknown",
           content := resolveContent fs a,
           type := a.type,
           timestamp := now }] }
  else st

/-- The `--status` branch of `main`. -/
def applyStatus (a : Args) (st : DebateState) : DebateState :=
  if pyTruthyS a.status then { st with status := a.status.getD "" } else st

/-- The `--thinking` branch of `main`: the `"none"` sentinel
(case-insensitively) clears the indicator. -/
def applyThinking (a : Args) (st : DebateState) : DebateState :=
  if pyTruthyS a.thinking then
    { st with thinking :=
        if asciiLower (a.thinking.getD "") == "none" then none else a.thinking }
  else st

/-- The `--set-round` branch of `main`. -/
def applySetRound (a : Args) (st : DebateState) : DebateState :=
  if pyTruthyI a.set_round then
    { st with current_round := a.set_round.getD 0 }
  else st

/-- The mutation section of `main`, in source order: init, add, status,
thinking, set-round. -/
def applyMutations (fs : String → Option String) (now : String) (a : Args)
    (st : DebateState) : DebateState :=
  applySetRound a (applyThinking a (applyStatus a (applyAdd fs now a (applyInit a st))))

/-! ## The page renderer (claim-relevant payload of `build_html`) -/

/-- One row of the static `AGENT_CONFIG` registry. -/
structure AgentCfg where
  name : String
  role : String
  color : String
  bg : String
  border : String
  icon : String
  align : String
deriving DecidableEq

def criticCfg : AgentCfg :=
  ⟨"Critic", "Adversarial Thinker", "#EF4444", "#FEF2F2", "#FECACA", "⚔️", "left"⟩

/-- The `AGENT_CONFIG` dictionary. -/
def AGENT_CONFIG (k : String) : Option AgentCfg :=
  if k == "critic" then some criticCfg
  else if k == "advocate" then
    some ⟨"Advocate", "Rigorous Defender", "#3B82F6", "#EFF6FF", "#BFDBFE", "🛡️", "right"⟩
  else if k == "judge" then
    some ⟨"Judge", "Impartial Arbiter", "#8B5CF6", "#F5F3FF", "#DDD6FE", "⚖️", "left"⟩
  else if k == "scribe" then
    some ⟨"Scribe", "Neutral Recorder", "#10B981", "#ECFDF5", "#A7F3D0", "📝", "right"⟩
  else none

/-- `AGENT_CONFIG.get(agent_key, AGENT_CONFIG["critic"])` (Python) /
`AGENTS[agentKey] || AGENTS['critic']` (JavaScript): unknown keys fall back
to the critic style. -/
def agentCfgOf (k : String) : AgentCfg := (AGENT_CONFIG k).getD criticCfg

/-- One item of the rendered feed: a round divider with its visible label, a
message bubble (resolved agent style, block-rendered content, timestamp), or
the transient thinking bubble. -/
inductive FeedItem where
  | divider (label : String)
  | bubble (cfg : AgentCfg) (contentHtml : List Nat) (timestamp : String)
  | thinkingBubble (cfg : AgentCfg)
deriving DecidableEq

/-- The distinct round numbers of the entry list, in first-appearance order
(the insertion order of the Python `rounds` dict). -/
def roundKeys (entries : List Entry) : List Int :=
  entries.foldl (fun acc e => if acc.contains e.round then acc else acc ++ [e.round]) []

def insertSorted (x : Int) : List Int → List Int
  | [] => [x]
  | y :: ys => if x ≤ y then x :: y :: ys else y :: insertSorted x ys

/-- `sorted(rounds.keys())`. -/
def sortInts : List Int → List Int
  | [] => []
  | x :: xs => insertSorted x (sortInts xs)

/-- `"Final Synthesis" if round_num == 0 else f"Round {round_num}"` (server
side, `build_html`). -/
def serverRoundLabel (r : Int) : String :=
  if r == 0 then "Final Synthesis" else "Round " ++ toString r

/-- The server-side pre-rendered feed of `build_html`: entries grouped by
round, rounds in ascending order, each group in insertion order, headed by
its labelled divider; each bubble's content is rendered by the server-side
`md_to_html`. -/
def ssrFeed (entries : List Entry) : List FeedItem :=
  ((sortInts (roundKeys entries)).map (fun r =>
    FeedItem.divider (serverRoundLabel r) ::
      (entries.filter (fun e => e.round == r)).map (fun e =>
        FeedItem.bubble (agentCfgOf (asciiLower e.agent))
          (md_to_html (lit e.content)) e.timestamp))).flatten

/-- The status badge: `"Debate Complete"` when completed, otherwise
`"Round X of Y"`. -/
def statusBadgeOf (st : DebateState) : String :=
  if st.status == "completed" then "Debate Complete"
  else "Round " ++ toString st.current_round ++ " of " ++ toString st.total_rounds

/-- The server-side thinking bubble: present when `thinking` is truthy and
the debate is in progress. -/
def ssrThinking (st : DebateState) : Option AgentCfg :=
  match st.thinking with
  | some t => if !(t == "") && st.status == "in_progress" then
      some (agentCfgOf (asciiLower t)) else none
  | none => none

/-- The state-dependent payload of the page produced by `build_html`: the
escaped topic, the pre-rendered feed, the thinking bubble, the status badge,
and the three values seeded into the client script (`knownVersion`,
`renderedEntryCount`, `isCompleted`).  The rest of the generated page (CSS,
static markup, the literal client script) is a constant string carrying no
state and is not modelled. -/
structure HtmlPage where
  topic : String
  feed : List FeedItem
  thinking : Option AgentCfg
  statusBadge : String
  version : Nat
  entryCount : Nat
  completed : Bool
deriving DecidableEq

def build_html (st : DebateState) : HtmlPage :=
  { topic := st.topic,
    feed := ssrFeed st.entries,
    thinking := ssrThinking st,
    statusBadge := statusBadgeOf st,
    version := st.version,
    entryCount := st.entries.length,
    completed := st.status == "completed" }

/-- Result of one CLI invocation of `main`: `--serve` and `--stop-server`
return before touching the document; every other invocation loads, mutates,
saves, and rewrites the HTML artifact from the saved state. -/
inductive CliResult where
  | served
  | stopped
  | updated (st : DebateState) (page : HtmlPage)
deriving DecidableEq

def runMain (fs : String → Option String) (now : String)
    (prev : Option DebateState) (a : Args) : CliResult :=
  if a.serve then .served
  else if a.stop_server then .stopped
  else
    let st2 := save_state (applyMutations fs now a (load_state prev))
    .updated st2 (build_html st2)

/-- The saved document of a CLI result, when one was saved. -/
def savedOf : CliResult → Option DebateState
  | .updated st _ => some st
  | _ => none

/-- The state after one CLI invocation, as seen by the next invocation (a
`--serve`/`--stop-server` invocation leaves the document untouched). -/
def stepState (fs : String → Option String) (now : String)
    (st : DebateState) (a : Args) : DebateState :=
  match runMain fs now (some st) a with
  | .updated st2 _ => st2
  | _ => st

/-- A sequence of CLI invocations against the persisted document. -/
def runSeq (fs : String → Option String) (now : String) :
    DebateState → List Args → DebateState
  | st, [] => st
  | st, a :: rest => runSeq fs now (stepState fs now st a) rest

/-! ## The client-side sync protocol (embedded script) -/

/-- `renderRoundDivider` of the client script:
`roundNum === 0 ? 'Final Synthesis' : 'Round ' + roundNum`. -/
def renderRoundDividerJs (r : Int) : String :=
  if r == 0 then "Final Synthesis" else "Round " ++ toString r

/-- `entry.round || 1` of `applyUpdate`: zero (falsy in JavaScript) is
replaced by the default `1`. -/
def jsRoundOf (r : Int) : Int := if r == 0 then 1 else r

/-- The numeric value of an ASCII digit run (client `parseInt`). -/
def digitsVal (ds : List Nat) : Nat := ds.foldl (fun acc d => acc * 10 + (d - 48)) 0

/-- First match of the unanchored pattern `Round (\d+)` in a divider label:
at each position, the literal `Round ` followed by a maximal non-empty ASCII
digit run. -/
def findRoundNum : List Nat → Option Nat
  | [] => none
  | c :: cs =>
    match dropPre (lit "Round ") (c :: cs) with
    | some r =>
      let ds := r.takeWhile jsIsDigit
      if ds.isEmpty then findRoundNum cs else some (digitsVal ds)
    | none => findRoundNum cs

/-- The rounds recorded from one existing divider label when `applyUpdate`
rebuilds its `renderedRounds` set: a `Round (\d+)` match contributes its
number, and the literal label `Final Synthesis` contributes round `0`. -/
def scanRound (label : String) : List Int :=
  (match findRoundNum (lit label) with
   | some n => [(n : Int)]
   | none => []) ++
  (if label == "Final Synthesis" then [0] else [])

/-- The `renderedRounds` set scanned from the dividers already in the feed. -/
def renderedRoundsOf (feed : List FeedItem) : List Int :=
  ((feed.filterMap (fun item =>
    match item with
    | .divider label => some label
    | _ => none)).map scanRound).flatten

/-- `renderBubble` of the client script: agent key lowercased, unknown keys
fall back to the critic style, content rendered by the client-side
`mdToHtml`. -/
def renderBubbleJs (e : Entry) : FeedItem :=
  FeedItem.bubble (agentCfgOf (asciiLower e.agent)) (mdToHtml (lit e.content)) e.timestamp

/-- The entry-appending loop of the client `applyUpdate`: for each new entry,
insert a divider for `entry.round || 1` unless that round is already in the
`renderedRounds` set, then insert the entry's bubble. -/
def applyUpdateGo (rounds : List Int) (feed : List FeedItem) :
    List Entry → List FeedItem
  | [] => feed
  | e :: es =>
    let rn := jsRoundOf e.round
    if rounds.contains rn then
      applyUpdateGo rounds (feed ++ [renderBubbleJs e]) es
    else
      applyUpdateGo (rounds ++ [rn])
        (feed ++ [FeedItem.divider (renderRoundDividerJs rn)] ++ [renderBubbleJs e]) es

/-- The feed-mutating part of the client `applyUpdate`: the old thinking
bubble is removed, the entries beyond `renderedCount` are appended (with
round-divider deduplication), and a fresh thinking bubble is appended when
the updated document still has an active one.  (The empty-state placeholder
and the status-badge/scroll updates touch no feed entries and are not
modelled.) -/
def applyUpdateJs (feed : List FeedItem) (renderedCount : Nat)
    (st : DebateState) : List FeedItem :=
  let feed0 := feed.filter (fun i =>
    match i with
    | .thinkingBubble _ => false
    | _ => true)
  let feed1 := applyUpdateGo (renderedRoundsOf feed0) feed0 (st.entries.drop renderedCount)
  match st.thinking with
  | some t =>
    if !(t == "") && st.status == "in_progress" then
      feed1 ++ [FeedItem.thinkingBubble (agentCfgOf (asciiLower t))]
    else feed1
  | none => feed1

/-! ## Support lemmas on the CLI model -/

theorem not_true_of_false {b : Bool} (h : b = false) : ¬(b = true) := by
  simp [h]

theorem applyInit_id {a : Args} (h : pyTruthyS a.init = false) (st : DebateState) :
    applyInit a st = st := by
  unfold applyInit
  rw [if_neg (not_true_of_false h)]

theorem applyInit_version_reset {a : Args} (h : pyTruthyS a.init = true)
    (st : DebateState) : (applyInit a st).version = 0 := by
  unfold applyInit
  rw [if_pos h]

theorem applyAdd_version (fs : String → Option String) (now : String) (a : Args)
    (st : DebateState) : (applyAdd fs now a st).version = st.version := by
  unfold applyAdd
  split <;> rfl

theorem applyStatus_version (a : Args) (st : DebateState) :
    (applyStatus a st).version = st.version := by
  unfold applyStatus
  split <;> rfl

theorem applyThinking_version (a : Args) (st : DebateState) :
    (applyThinking a st).version = st.version := by
  unfold applyThinking
  split <;> rfl

theorem applySetRound_version (a : Args) (st : DebateState) :
    (applySetRound a st).version = st.version := by
  unfold applySetRound
  split <;> rfl

theorem applyMutations_version {a : Args} (h : pyTruthyS a.init = false)
    (fs : String → Option String) (now : String) (st : DebateState) :
    (applyMutations fs now a st).version = st.version := by
  unfold applyMutations
  rw [applySetRound_version, applyThinking_version, applyStatus_version,
    applyAdd_version, applyInit_id h]

theorem applyMutations_version_init {a : Args} (h : pyTruthyS a.init = true)
    (fs : String → Option String) (now : String) (st : DebateState) :
    (applyMutations fs now a st).version = 0 := by
  unfold applyMutations
  rw [applySetRound_version, applyThinking_version, applyStatus_version,
    applyAdd_version, applyInit_version_reset h]

theorem applyStatus_entries (a : Args) (st : DebateState) :
    (applyStatus a st).entries = st.entries := by
  unfold applyStatus
  split <;> rfl

theorem applyThinking_entries (a : Args) (st : DebateState) :
    (applyThinking a st).entries = st.entries := by
  unfold applyThinking
  split <;> rfl

theorem applySetRound_entries (a : Args) (st : DebateState) :
    (applySetRound a st).entries = st.entries := by
  unfold applySetRound
  split <;> rfl

theorem runMain_updated {a : Args} (h1 : a.serve = false) (h2 : a.stop_server = false)
    (fs : String → Option String) (now : String) (prev : Option DebateState) :
    runMain fs now prev a =
      .updated (save_state (applyMutations fs now a (load_state prev)))
        (build_html (save_state (applyMutations fs now a (load_state prev)))) := by
  unfold runMain
  rw [if_neg (not_true_of_false h1), if_neg (not_true_of_false h2)]

theorem stepState_eq {a : Args} (h1 : a.serve = false) (h2 : a.stop_server = false)
    (fs : String → Option String) (now : String) (st : DebateState) :
    stepState fs now st a = save_state (applyMutations fs now a st) := by
  unfold stepState
  rw [runMain_updated h1 h2]
  rfl

/-! ## Claim theorems -/

/-- C7: `load_state` on a missing persisted document returns the fresh-state
defaults (empty topic, status `in_progress`, no thinking agent, current round
1, total rounds 3, version 0, no entries) rather than raising an error. -/
theorem load_missing_defaults :
    load_state none =
      { topic := "", status := "in_progress", thinking := none,
        current_round := 1, total_rounds := 3, version := 0, entries := [] } := rfl

/-- C9: an `--add` invocation whose round argument is `0` stores the
document's `current_round` in the new entry (Python's `or` treats a zero
round argument exactly like an absent one), so the reserved final-synthesis
round `0` can never be produced by passing `0` as the round argument. -/
theorem round_zero_defaults_current (fs : String → Option String) (now : String)
    (st : DebateState) (a : Args) (hadd : a.add = true) (hr : a.round = some 0) :
    ((applyAdd fs now a st).entries = st.entries ++
      [{ round := st.current_round,
         agent := pyOrS a.agent "unknown",
         content := resolveContent fs a,
         type := a.type,
         timestamp := now }])
    ∧ (∀ d : Int, pyOrI (some 0) d = pyOrI none d ∧ pyOrI (some 0) d = d) := by
  constructor
  · unfold applyAdd
    rw [if_pos hadd, hr]
    simp [pyOrI, pyTruthyI]
  · intro d
    constructor <;> simp [pyOrI, pyTruthyI]

theorem round_zero_defaults_current_witness :
    ((applyAdd (fun _ => none) "12:00"
        ⟨none, true, some "judge", some 0, none, some "text", "turn", none, none,
          none, false, false⟩
        { load_state none with current_round := 2 }).entries =
      ({ load_state none with current_round := 2 } : DebateState).entries ++
      [{ round := ({ load_state none with current_round := 2 } : DebateState).current_round,
         agent := pyOrS (some "judge") "unknown",
         content := resolveContent (fun _ => none)
          ⟨none, true, some "judge", some 0, none, some "text", "turn", none, none,
            none, false, false⟩,
         type := "turn",
         timestamp := "12:00" }])
    ∧ (∀ d : Int, pyOrI (some 0) d = pyOrI none d ∧ pyOrI (some 0) d = d) :=
  round_zero_defaults_current (fun _ => none) "12:00"
    { load_state none with current_round := 2 }
    ⟨none, true, some "judge", some 0, none, some "text", "turn", none, none,
      none, false, false⟩ rfl rfl

/-- C2: every save increments `version` by exactly 1 regardless of what
changed; a sequence of `N` save-triggering invocations none of which
re-initialises moves the version from `V0` to `V0 + N`; a re-initialising
invocation resets the version to 0 and the save of the same invocation
brings it to 1. -/
theorem version_monotonic :
    (∀ st : DebateState, (save_state st).version = st.version + 1)
    ∧ (∀ (fs : String → Option String) (now : String) (ops : List Args)
        (st : DebateState),
        (∀ a ∈ ops, a.serve = false ∧ a.stop_server = false ∧ pyTruthyS a.init = false) →
        (runSeq fs now st ops).version = st.version + ops.length)
    ∧ (∀ (fs : String → Option String) (now : String) (prev : Option DebateState)
        (a : Args),
        a.serve = false → a.stop_server = false → pyTruthyS a.init = true →
        ∃ pg, runMain fs now prev a = .updated
            (save_state (applyMutations fs now a (load_state prev))) pg
          ∧ (save_state (applyMutations fs now a (load_state prev))).version = 1) := by
  refine ⟨fun st => rfl, ?_, ?_⟩
  · intro fs now ops
    induction ops with
    | nil => intro st _; simp [runSeq]
    | cons a rest ih =>
      intro st h
      obtain ⟨h1, h2, h3⟩ := h a (List.mem_cons_self a rest)
      rw [show runSeq fs now st (a :: rest) = runSeq fs now (stepState fs now st a) rest
        from rfl]
      rw [stepState_eq h1 h2]
      rw [ih _ (fun b hb => h b (List.mem_cons_of_mem a hb))]
      have hv : (save_state (applyMutations fs now a st)).version = st.version + 1 := by
        show (applyMutations fs now a st).version + 1 = st.version + 1
        rw [applyMutations_version h3]
      rw [hv]
      simp [List.length_cons]
      omega
  · intro fs now prev a h1 h2 h3
    refine ⟨build_html (save_state (applyMutations fs now a (load_state prev))), ?_, ?_⟩
    · exact runMain_updated h1 h2 fs now prev
    · show (applyMutations fs now a (load_state prev)).version + 1 = 1
      rw [applyMutations_version_init h3]

theorem version_monotonic_witness :
    ((save_state (load_state none)).version = (load_state none).version + 1)
    ∧ ((runSeq (fun _ => none) "10:00" { load_state none with version := 5 }
        [⟨none, false, none, none, none, none, "turn", some "completed", none, none,
          false, false⟩,
         ⟨none, false, none, none, none, none, "turn", none, some "advocate", none,
          false, false⟩]).version
      = ({ load_state none with version := 5 } : DebateState).version +
        ([⟨none, false, none, none, none, none, "turn", some "completed", none, none,
          false, false⟩,
          ⟨none, false, none, none, none, none, "turn", none, some "advocate", none,
          false, false⟩] : List Args).length)
    ∧ (∃ pg, runMain (fun _ => none) "10:00"
          (some { load_state none with version := 5 })
          ⟨some "New topic", false, none, none, none, none, "turn", none, none, none,
            false, false⟩
        = .updated (save_state (applyMutations (fun _ => none) "10:00"
            ⟨some "New topic", false, none, none, none, none, "turn", none, none, none,
              false, false⟩
            (load_state (some { load_state none with version := 5 })))) pg
        ∧ (save_state (applyMutations (fun _ => none) "10:00"
            ⟨some "New topic", false, none, none, none, none, "turn", none, none, none,
              false, false⟩
            (load_state (some { load_state none with version := 5 })))).version = 1) :=
  ⟨version_monotonic.1 (load_state none),
   version_monotonic.2.1 (fun _ => none) "10:00" _ _ (by decide),
   version_monotonic.2.2 (fun _ => none) "10:00" _ _ rfl rfl (by decide)⟩

/-- C10: every CLI invocation other than `--serve` and `--stop-server` saves
the document (incrementing the version) and rewrites the HTML artifact from
the saved state; in particular an invocation with no mutation flags at all
still saves (bumping only the version) and still rewrites the page. -/
theorem always_save_and_render :
    (∀ (fs : String → Option String) (now : String) (prev : Option DebateState)
      (a : Args), a.serve = false → a.stop_server = false →
      runMain fs now prev a =
        .updated (save_state (applyMutations fs now a (load_state prev)))
          (build_html (save_state (applyMutations fs now a (load_state prev)))))
    ∧ (∀ (fs : String → Option String) (now : String) (prev : Option DebateState)
      (a : Args), a.serve = false → a.stop_server = false →
      pyTruthyS a.init = false → a.add = false → pyTruthyS a.status = false →
      pyTruthyS a.thinking = false → pyTruthyI a.set_round = false →
      runMain fs now prev a =
        .updated { load_state prev with version := (load_state prev).version + 1 }
          (build_html { load_state prev with version := (load_state prev).version + 1 })) := by
  constructor
  · intro fs now prev a h1 h2
    exact runMain_updated h1 h2 fs now prev
  · intro fs now prev a h1 h2 hi ha hs ht hr
    have hmut : applyMutations fs now a (load_state prev) = load_state prev := by
      unfold applyMutations applySetRound applyThinking applyStatus applyAdd
      rw [applyInit_id hi]
      rw [if_neg (not_true_of_false ha), if_neg (not_true_of_false hs),
        if_neg (not_true_of_false ht), if_neg (not_true_of_false hr)]
    rw [runMain_updated h1 h2, hmut]
    rfl

/-- An `--init TOPIC` invocation with no other flags. -/
def initArgs (t : String) : Args :=
  ⟨some t, false, none, none, none, none, "turn", none, none, none, false, false⟩

/-- The document persisted by a successful re-initialisation with topic `t`
(total rounds carry over from the previous document). -/
def initResult (prev : Option DebateState) (t : String) : DebateState :=
  { topic := t, status := "in_progress", thinking := none, current_round := 1,
    total_rounds := (load_state prev).total_rounds, version := 1, entries := [] }

/-- C3 counterexample: initialising with the empty topic string does not
initialise at all (`if args.init:` is falsy on `""`), so the persisted
document keeps its old topic and entries and merely gets a version bump —
not topic `""`, not empty entries, not version 1. -/
theorem init_empty_topic_cex :
    savedOf (runMain (fun _ => none) "09:30"
      (some { topic := "old", status := "completed", thinking := none,
              current_round := 2, total_rounds := 3, version := 5,
              entries := [{ round := 1, agent := "critic", content := "hi",
                            type := "turn", timestamp := "09:00" }] })
      (initArgs ""))
    = some { topic := "old", status := "completed", thinking := none,
             current_round := 2, total_rounds := 3, version := 6,
             entries := [{ round := 1, agent := "critic", content := "hi",
                           type := "turn", timestamp := "09:00" }] }
    ∧ ¬(("old" : String) = "" ∧ (6 : Nat) = 1) := by
  exact ⟨rfl, by decide⟩

/-- C3 (amended to non-empty topics): initialising with a non-empty topic `T`
and loading the persisted document yields topic `T`, status `in_progress`,
empty entries, and version reset to 0 then incremented to 1 by the same
invocation's save. -/
theorem init_round_trip_nonempty (fs : String → Option String) (now : String)
    (prev : Option DebateState) (t : String) (ht : ¬(t = "")) :
    ∃ pg, runMain fs now prev (initArgs t) = .updated (initResult prev t) pg
      ∧ load_state (some (initResult prev t)) = initResult prev t := by
  refine ⟨build_html (initResult prev t), ?_, rfl⟩
  have h1 : (initArgs t).serve = false := rfl
  have h2 : (initArgs t).stop_server = false := rfl
  rw [runMain_updated h1 h2]
  have hst : save_state (applyMutations fs now (initArgs t) (load_state prev))
      = initResult prev t := by
    have htr : pyTruthyS (initArgs t).init = true := by
      simp [initArgs, pyTruthyS, ht]
    unfold applyMutations applySetRound applyThinking applyStatus applyAdd
    rw [if_neg (not_true_of_false
          (show pyTruthyI (initArgs t).set_round = false from rfl)),
        if_neg (not_true_of_false
          (show pyTruthyS (initArgs t).thinking = false from rfl)),
        if_neg (not_true_of_false
          (show pyTruthyS (initArgs t).status = false from rfl)),
        if_neg (not_true_of_false (show (initArgs t).add = false from rfl))]
    unfold applyInit
    rw [if_pos htr]
    rfl
  rw [hst]

theorem init_round_trip_nonempty_witness :
    ¬(("Will AI exceed humans?" : String) = "")
    ∧ ∃ pg, runMain (fun _ => none) "09:45"
          (some { load_state none with version := 41 })
          (initArgs "Will AI exceed humans?")
        = .updated (initResult (some { load_state none with version := 41 })
            "Will AI exceed humans?") pg
      ∧ load_state (some (initResult (some { load_state none with version := 41 })
            "Will AI exceed humans?"))
        = initResult (some { load_state none with version := 41 })
            "Will AI exceed humans?" :=
  ⟨by decide,
   init_round_trip_nonempty (fun _ => none) "09:45"
    (some { load_state none with version := 41 }) "Will AI exceed humans?" (by decide)⟩

/-- C8 counterexample: an `--add` with a content-file path that does not
exist but with an inline `--content` stores the inline content, not the
empty string the claim requires for every missing-content-file append. -/
theorem append_missing_file_cex :
    savedOf (runMain (fun _ => none) "11:00" (some (load_state none))
      ⟨none, true, some "critic", some 1, some "missing.md", some "short note",
        "turn", none, none, none, false, false⟩)
    = some { load_state none with
        version := 1,
        entries := [{ round := 1, agent := "critic", content := "short note",
                      type := "turn", timestamp := "11:00" }] }
    ∧ (fun _ => (none : Option String)) "missing.md" = none
    ∧ ¬(("short note" : String) = "") := by
  refine ⟨?_, rfl, by decide⟩
  rfl

/-- C8 (amended: no truthy inline content): an `--add` whose content-file
path does not exist and whose inline content is absent or empty appends an
entry with empty content while still recording the round, agent, type and
timestamp of the turn. -/
theorem append_missing_file_empty (fs : String → Option String) (now : String)
    (st : DebateState) (a : Args) (p : String)
    (h1 : a.serve = false) (h2 : a.stop_server = false)
    (hinit : pyTruthyS a.init = false) (hadd : a.add = true)
    (hcf : a.content_file = some p) (hex : fs p = none)
    (hct : pyTruthyS a.content = false) :
    ∃ pg, runMain fs now (some st) a
        = .updated (save_state (applyMutations fs now a st)) pg
      ∧ (save_state (applyMutations fs now a st)).entries
        = st.entries ++
          [{ round := pyOrI a.round st.current_round,
             agent := pyOrS a.agent "unknown",
             content := "",
             type := a.type,
             timestamp := now }] := by
  refine ⟨build_html (save_state (applyMutations fs now a st)), runMain_updated h1 h2 fs now (some st), ?_⟩
  have hrc : resolveContent fs a = "" := by
    unfold resolveContent
    rw [if_neg (not_true_of_false (by rw [hcf]; simp [hex]))]
    rw [if_neg (not_true_of_false hct)]
  show (applyMutations fs now a st).entries = _
  unfold applyMutations
  rw [applySetRound_entries, applyThinking_entries, applyStatus_entries]
  unfold applyAdd
  rw [if_pos hadd, applyInit_id hinit, hrc]

theorem append_missing_file_empty_witness :
    ∃ pg, runMain (fun _ => none) "11:15" (some (load_state none))
        ⟨none, true, some "scribe", some 2, some "notes/out.md", none, "turn",
          none, none, none, false, false⟩
        = .updated (save_state (applyMutations (fun _ => none) "11:15"
            ⟨none, true, some "scribe", some 2, some "notes/out.md", none, "turn",
              none, none, none, false, false⟩ (load_state none))) pg
      ∧ (save_state (applyMutations (fun _ => none) "11:15"
            ⟨none, true, some "scribe", some 2, some "notes/out.md", none, "turn",
              none, none, none, false, false⟩ (load_state none))).entries
        = (load_state none).entries ++
          [{ round := pyOrI (some 2) (load_state none).current_round,
             agent := pyOrS (some "scribe") "unknown",
             content := "",
             type := "turn",
             timestamp := "11:15" }] :=
  append_missing_file_empty (fun _ => none) "11:15" (load_state none)
    ⟨none, true, some "scribe", some 2, some "notes/out.md", none, "turn",
      none, none, none, false, false⟩ "notes/out.md" rfl rfl rfl rfl rfl rfl rfl

/-- Substring test (used to state that a rendering does or does not contain
a given HTML fragment). -/
def containsSeq (pat : List Nat) : List Nat → Bool
  | [] => (dropPre pat []).isSome
  | c :: cs => (dropPre pat (c :: cs)).isSome || containsSeq pat cs

theorem gsubGo_nil (m : List Nat → Option (List Nat × List Nat)) :
    ∀ fuel, gsubGo m fuel [] = [] := by
  intro fuel
  cases fuel <;> rfl

/-- A full-string match makes `gsub` output exactly the replacement. -/
theorem gsub_full {m : List Nat → Option (List Nat × List Nat)}
    {s rep : List Nat} (hm : m s = some (rep, [])) (hne : s ≠ []) :
    gsub m s = rep := by
  cases s with
  | nil => exact absurd rfl hne
  | cons c cs =>
    unfold gsub
    show gsubGo m (cs.length + 1) (c :: cs) = rep
    unfold gsubGo
    rw [hm]
    dsimp only
    rw [gsubGo_nil, List.append_nil]

/-- If the matcher fails on every suffix, `gsub` is the identity. -/
theorem gsubGo_id {m : List Nat → Option (List Nat × List Nat)} :
    ∀ {s : List Nat}, (∀ t, t <:+ s → m t = none) →
      ∀ fuel, gsubGo m fuel s = s := by
  intro s
  induction s with
  | nil => intro _ fuel; exact gsubGo_nil m fuel
  | cons c cs ih =>
    intro hm fuel
    cases fuel with
    | zero => rfl
    | succ f =>
      unfold gsubGo
      rw [hm (c :: cs) (List.suffix_refl _)]
      dsimp only
      rw [ih (fun t ht => hm t (ht.trans (List.suffix_cons c cs))) f]

theorem gsub_id {m : List Nat → Option (List Nat × List Nat)} {s : List Nat}
    (hm : ∀ t, t <:+ s → m t = none) : gsub m s = s :=
  gsubGo_id hm s.length

/-- Decomposition of a suffix of an append. -/
theorem suffix_append_cases {t X Y : List Nat} (h : t <:+ X ++ Y) :
    t <:+ Y ∨ ∃ u, u <:+ X ∧ u ≠ [] ∧ t = u ++ Y := by
  induction X with
  | nil => exact Or.inl h
  | cons x X2 ih =>
    rcases List.suffix_cons_iff.mp h with h1 | h1
    · exact Or.inr ⟨x :: X2, List.suffix_refl _, List.cons_ne_nil _ _, h1⟩
    · rcases ih h1 with h2 | ⟨u, hu, hne, ht⟩
      · exact Or.inl h2
      · exact Or.inr ⟨u, hu.trans (List.suffix_cons x X2), hne, ht⟩

theorem dropPre_head_ne {p : Nat} {ps s : List Nat} {c : Nat} (h : ¬(c = p)) :
    dropPre (p :: ps) (c :: s) = none := by
  unfold dropPre
  rw [if_neg h]

/-- The unsourced matcher can only fire on a `[`. -/
theorem matchUnsourced_head {sp : Nat → Bool} {c : Nat} {rest : List Nat}
    (h : ¬(c = 91)) : matchUnsourced sp (c :: rest) = none := by
  unfold matchUnsourced
  rw [show lit "[Unsourced" = 91 :: lit "Unsourced" from rfl, dropPre_head_ne h]

/-- The link matcher can only fire on a `[`. -/
theorem matchLink_head {c : Nat} {rest : List Nat} (h : ¬(c = 91)) :
    matchLink (c :: rest) = none := by
  unfold matchLink
  dsimp only
  rw [if_neg h]

/-- The bold matcher can only fire on a `*`. -/
theorem matchBold_head {dot : Nat → Bool} {c : Nat} {rest : List Nat}
    (h : ¬(c = 42)) : matchBold dot (c :: rest) = none := by
  unfold matchBold
  rw [show lit "**" = 42 :: lit "*" from rfl, dropPre_head_ne h]

/-- The code matcher can only fire on a backtick. -/
theorem matchCode_head {c : Nat} {rest : List Nat} (h : ¬(c = 96)) :
    matchCode (c :: rest) = none := by
  unfold matchCode
  dsimp only
  rw [if_neg h]

theorem splitUntil_sep_append {sep : Nat} {l r : List Nat}
    (h : ∀ c ∈ l, ¬(c = sep)) : splitUntil sep (l ++ sep :: r) = some (l, r) := by
  induction l with
  | nil =>
    show splitUntil sep (sep :: r) = some ([], r)
    unfold splitUntil
    rw [if_pos rfl]
  | cons c cs ih =>
    show splitUntil sep (c :: (cs ++ sep :: r)) = some (c :: cs, r)
    unfold splitUntil
    rw [if_neg (h c (List.mem_cons_self c cs)),
      ih (fun x hx => h x (List.mem_cons_of_mem c hx))]
    rfl

/-- The spec's citation-precedence input family: `[Source: "X", Y](url)`. -/
def citeInput (url : List Nat) : List Nat :=
  lit "[Source: \"X\", Y](" ++ url ++ lit ")"

/-- The citation badge that the citation pass produces for that family. -/
def citeOutput (url : List Nat) : List Nat :=
  lit "<a class=\"citation\" href=\"" ++ url ++
  lit "\" target=\"_blank\" title=\"X\">[X, Y]</a>"

theorem citeOutput_eq_rep (url : List Nat) :
    citationRep [88] (some [89]) url = citeOutput url := by
  unfold citationRep citationExtra citeOutput
  simp [List.append_assoc]
  rfl

/-- A character set keeping a URL inert for every later inline pass. -/
def urlOk (url : List Nat) : Prop :=
  ∀ c ∈ url, ¬(c = 41) ∧ ¬(c = 91) ∧ ¬(c = 96) ∧ ¬(c = 42)

theorem citationPass_family {url : List Nat} (hne : url ≠ []) (hok : urlOk url) :
    citationPass pyIsSpace (citeInput url) = citeOutput url := by
  have hstep : matchCitation pyIsSpace (citeInput url)
      = citationFinish [88] (some [89]) (40 :: (url ++ lit ")")) := rfl
  have hfin : citationFinish [88] (some [89]) (40 :: (url ++ lit ")"))
      = some (citeOutput url, []) := by
    unfold citationFinish
    dsimp only
    rw [if_pos rfl]
    rw [show lit ")" = 41 :: ([] : List Nat) from rfl]
    rw [splitUntil_sep_append (fun c hc => (hok c hc).1)]
    dsimp only
    rw [if_neg hne, citeOutput_eq_rep]
  have hcons : citeInput url
      = 91 :: ((lit "Source: \"X\", Y](" ++ url) ++ lit ")") := rfl
  exact gsub_full (hstep.trans hfin) (by simp [hcons])

theorem c5_matchers_none {url : List Nat} (hok : urlOk url) :
    ∀ t, t <:+ citeOutput url →
      matchUnsourced pyIsSpace t = none ∧ matchLink t = none
      ∧ matchBold pyDot t = none ∧ matchCode t = none := by
  have hB : ∀ t ∈ (lit "\" target=\"_blank\" title=\"X\">[X, Y]</a>").tails,
      matchUnsourced pyIsSpace t = none ∧ matchLink t = none
      ∧ matchBold pyDot t = none ∧ matchCode t = none := by decide
  have hA : ∀ c ∈ lit "<a class=\"citation\" href=\"",
      ¬(c = 91) ∧ ¬(c = 96) ∧ ¬(c = 42) := by decide
  intro t ht
  have ht2 : t <:+ lit "<a class=\"citation\" href=\"" ++
      (url ++ lit "\" target=\"_blank\" title=\"X\">[X, Y]</a>") := by
    rw [← List.append_assoc]
    exact ht
  rcases suffix_append_cases ht2 with h1 | ⟨u, hu, hne, rfl⟩
  · rcases suffix_append_cases h1 with h2 | ⟨u, hu, hne, rfl⟩
    · exact hB t ((List.mem_tails _ _).mpr h2)
    · rcases u with - | ⟨c, u2⟩
      · exact absurd rfl hne
      · have hc : c ∈ url := hu.subset (List.mem_cons_self c u2)
        obtain ⟨-, h91, h96, h42⟩ := hok c hc
        exact ⟨matchUnsourced_head h91, matchLink_head h91,
          matchBold_head h42, matchCode_head h96⟩
  · rcases u with - | ⟨c, u2⟩
    · exact absurd rfl hne
    · have hc : c ∈ lit "<a class=\"citation\" href=\"" :=
        hu.subset (List.mem_cons_self c u2)
      obtain ⟨h91, h96, h42⟩ := hA c hc
      exact ⟨matchUnsourced_head h91, matchLink_head h91,
        matchBold_head h42, matchCode_head h96⟩

/-- C5: the inline formatter applies its five substitutions in the fixed
order citation, unsourced marker, generic link, bold, inline code; on the
sourced-citation family `[Source: "X", Y](url)` (for any non-empty URL
containing none of `)`, `[`, backtick, `*`) the result is exactly the
citation badge — an anchor with class `citation`, tooltip `X`, visible label
`[X, Y]` — and in particular on the spec's test input the output carries
`class="citation"` and no `source-link` anchor, even though the input also
matches the generic link pattern. -/
theorem citation_precedence :
    (∀ s : List Nat, inline_format s
      = codePass (boldPass pyDot (linkPass (unsourcedPass pyIsSpace
          (citationPass pyIsSpace s)))))
    ∧ (∀ url : List Nat, url ≠ [] → urlOk url →
        inline_format (citeInput url) = citeOutput url)
    ∧ inline_format (lit "[Source: \"X\", Y](http://a)")
        = lit "<a class=\"citation\" href=\"http://a\" target=\"_blank\" title=\"X\">[X, Y]</a>"
    ∧ containsSeq (lit "class=\"citation\"")
        (inline_format (lit "[Source: \"X\", Y](http://a)")) = true
    ∧ containsSeq (lit "source-link")
        (inline_format (lit "[Source: \"X\", Y](http://a)")) = false := by
  refine ⟨fun s => rfl, ?_, by decide, by decide, by decide⟩
  intro url hne hok
  show codePass (boldPass pyDot (linkPass (unsourcedPass pyIsSpace
      (citationPass pyIsSpace (citeInput url))))) = citeOutput url
  rw [citationPass_family hne hok]
  rw [show unsourcedPass pyIsSpace (citeOutput url) = citeOutput url from
    gsub_id (fun t ht => (c5_matchers_none hok t ht).1)]
  rw [show linkPass (citeOutput url) = citeOutput url from
    gsub_id (fun t ht => (c5_matchers_none hok t ht).2.1)]
  rw [show boldPass pyDot (citeOutput url) = citeOutput url from
    gsub_id (fun t ht => (c5_matchers_none hok t ht).2.2.1)]
  exact gsub_id (fun t ht => (c5_matchers_none hok t ht).2.2.2)

theorem citation_precedence_witness :
    (lit "http://a" ≠ []) ∧ urlOk (lit "http://a")
    ∧ inline_format (citeInput (lit "http://a")) = citeOutput (lit "http://a") :=
  ⟨by decide, by unfold urlOk; decide,
   citation_precedence.2.1 (lit "http://a") (by decide) (by unfold urlOk; decide)⟩

/-- C4 (code-bug evidence): the server-side renderer groups a round-0 entry
under a divider labelled `Final Synthesis`, but the client-side append path
computes `entry.round || 1`, which coerces the falsy round 0 to 1: the
divider the client inserts for a round-0 entry is labelled `Round 1`, even
though the client's own `renderRoundDivider` has a (thereby unreachable)
`Final Synthesis` branch for round 0 and its divider-deduplication scan
explicitly records round 0 for `Final Synthesis` labels. -/
theorem round0_client_divider_bug :
    serverRoundLabel 0 = "Final Synthesis"
    ∧ renderRoundDividerJs 0 = "Final Synthesis"
    ∧ ssrFeed [{ round := 0, agent := "judge", content := "done",
                 type := "synthesis", timestamp := "12:00" }]
        = [FeedItem.divider "Final Synthesis",
           FeedItem.bubble (agentCfgOf (asciiLower "judge"))
             (md_to_html (lit "done")) "12:00"]
    ∧ applyUpdateJs [] 0
        { topic := "T", status := "in_progress", thinking := none,
          current_round := 1, total_rounds := 3, version := 3,
          entries := [{ round := 0, agent := "judge", content := "done",
                        type := "synthesis", timestamp := "12:00" }] }
        = [FeedItem.divider "Round 1",
           FeedItem.bubble (agentCfgOf (asciiLower "judge"))
             (mdToHtml (lit "done")) "12:00"]
    ∧ ¬(("Round 1" : String) = "Final Synthesis") := by
  exact ⟨rfl, rfl, by decide, by decide, by decide⟩

/-- C6: on the three-row pipe-table input the block renderer emits exactly
one table, whose header row has the two cells A and B and whose body has
exactly one row with the two cells 1 and 2; the all-dashes separator row
contributes no output; the embedded client renderer emits the identical
HTML. -/
theorem table_parse_shape :
    md_to_html (lit "| A | B |\n| --- | --- |\n| 1 | 2 |")
      = lit ("<table class=\"debate-table\"><thead><tr>\n<th>A</th>\n<th>B</th>\n"
          ++ "</tr></thead><tbody>\n<tr>\n<td>1</td>\n<td>2</td>\n</tr>\n</tbody></table>")
    ∧ mdToHtml (lit "| A | B |\n| --- | --- |\n| 1 | 2 |")
      = lit ("<table class=\"debate-table\"><thead><tr>\n<th>A</th>\n<th>B</th>\n"
          ++ "</tr></thead><tbody>\n<tr>\n<td>1</td>\n<td>2</td>\n</tr>\n</tbody></table>") :=
  ⟨by decide, by decide⟩

/-- C1 counterexample: on the Arabic-Indic digit three (U+0663), Python's
Unicode-aware `\d` recognises `٣. x` as a numbered-list line while
JavaScript's ASCII-only `\d` does not, so the server renders a list and the
client a paragraph: the two renderers' HTML differs in tag structure. -/
theorem renderer_equiv_cex :
    md_to_html [1635, 46, 32, 120] = lit "<ul class=\"debate-list\">\n  <li>x</li>\n</ul>"
    ∧ mdToHtml [1635, 46, 32, 120] = lit "<p>" ++ [1635, 46, 32, 120] ++ lit "</p>"
    ∧ ¬(md_to_html [1635, 46, 32, 120] = mdToHtml [1635, 46, 32, 120]) :=
  ⟨by decide, by decide, by decide⟩

/-- C1 (amended to content whose characters are tab, LF, VT, FF or printable
ASCII — the region where the two host regex dialects agree): the server-side
renderer `md_to_html` and the client-side renderer `mdToHtml` embedded in
the generated page produce identical HTML, byte for byte, hence the same tag
sequence and nesting, on every such content string, for any mix of headers,
lists, tables, citations, unsourced markers, bold and code spans.  On
arbitrary Unicode content the claim fails (see the counterexample): Python's
`\d`, `\s` and `.` classes are Unicode-aware while JavaScript's `\d` is
ASCII-only, the two whitespace classes disagree on 0x1C-0x1F, 0x85 and
0xFEFF, and the two `.` classes disagree on CR. -/
theorem renderer_equiv_ascii (s : List Nat) (h : ∀ c ∈ s, asciiSafe c = true) :
    md_to_html s = mdToHtml s :=
  render_congr h

theorem renderer_equiv_ascii_witness :
    (∀ c ∈ lit ("# Head\n\n- a\n1. b\n\n| A | B |\n| --- | --- |\n| 1 | 2 |\n\n"
        ++ "**bold** `code` [t](u) [Source: \"X\", Y](http://a) [Unsourced -- n]"),
      asciiSafe c = true)
    ∧ md_to_html (lit ("# Head\n\n- a\n1. b\n\n| A | B |\n| --- | --- |\n| 1 | 2 |\n\n"
        ++ "**bold** `code` [t](u) [Source: \"X\", Y](http://a) [Unsourced -- n]"))
      = mdToHtml (lit ("# Head\n\n- a\n1. b\n\n| A | B |\n| --- | --- |\n| 1 | 2 |\n\n"
        ++ "**bold** `code` [t](u) [Source: \"X\", Y](http://a) [Unsourced -- n]")) :=
  ⟨by decide, renderer_equiv_ascii _ (by decide)⟩

theorem always_save_and_render_witness :
    runMain (fun _ => none) "10:30" (some { load_state none with version := 7 })
      ⟨none, false, none, none, none, none, "turn", none, none, none, false, false⟩
    = .updated { load_state (some { load_state none with version := 7 }) with
          version := (load_state (some { load_state none with version := 7 })).version + 1 }
        (build_html { load_state (some { load_state none with version := 7 }) with
          version := (load_state (some { load_state none with version := 7 })).version + 1 }) :=
  always_save_and_render.2 (fun _ => none) "10:30"
    (some { load_state none with version := 7 })
    ⟨none, false, none, none, none, none, "turn", none, none, none, false, false⟩
    rfl rfl rfl rfl rfl rfl rfl

end AgentDebate
